import Mathlib

/-!
Verification of the Safari-history extraction/ingestion/query core.

This file is a shallow embedding, in Lean 4, of the Rust sources under
`src/`:

* `src/extractor/safari.rs` — schema validation, timestamp normalization
  (`mac_to_utc`), URL/visit extraction with per-row soft failures;
* `src/db/operations.rs` — the canonical store operations
  (`insert_history_data`, `insert_url`, `insert_visit`, `insert_metadata`,
  `search_history`, the timeline aggregation queries and their
  per-bucket sample queries).

Modelling conventions:

* `Uuid` values are modelled as `Nat`; only equality of ids is ever used
  by the code. Freshly minted v4 uuids are modelled as sequence numbers
  (only their per-batch distinctness matters).
* `DateTime<Utc>` values are stored in the canonical store via
  `.timestamp()` (whole seconds, `i64`), so they are modelled as `Int`
  unix seconds throughout.
* chrono's `Utc.timestamp_opt(secs, 0)` returns a single valid instant
  exactly when `secs` is within the representable `NaiveDateTime` range;
  that range is modelled by the constants `CHRONO_MIN_TS`/`CHRONO_MAX_TS`
  (seconds of -262144-01-01T00:00:00 and 262143-12-31T23:59:59).
* SQLite statements are modelled by their relational meaning over the
  in-memory `Store`. The `execute` calls of `operations.rs` are modelled
  as always succeeding: the embedding does not model SQLite-level
  failures (disk errors, schema constraints), so the per-record error
  branches of `insert_history_data` are never taken.
* `f64` visit durations are carried opaquely as `Option Int`; no claim
  and no code path examined here computes with them.
-/

namespace Hist

/-- The fixed offset between the macOS epoch (2001-01-01) and the Unix
epoch (1970-01-01), from `safari.rs`. -/
def MAC_TO_UNIX_EPOCH_OFFSET : Int := 978307200

/-- Smallest unix-seconds value representable by chrono's
`NaiveDateTime` (00:00:00 on January 1 of astronomical year -262144). -/
def CHRONO_MIN_TS : Int := -8334632851200

/-- Largest unix-seconds value representable by chrono's `NaiveDateTime`
at nanosecond 0 (23:59:59 on December 31 of year 262143). -/
def CHRONO_MAX_TS : Int := 8210298412799

/-- Model of chrono's `Utc.timestamp_opt(secs, 0)`: a single valid UTC
instant exactly when `secs` is in the representable range. -/
def timestamp_opt (secs : Int) : Option Int :=
  if CHRONO_MIN_TS ≤ secs ∧ secs ≤ CHRONO_MAX_TS then some secs else none

/-- `ExtractionError` from `extractor/error.rs` (the variants reached by
the code modelled here). `UnsupportedSchema` carries the name of the
missing table; the Rust code wraps it in a longer message. -/
inductive ExtractionError where
  | Database (msg : String)
  | Parse (msg : String)
  | UnsupportedSchema (missingTable : String)
deriving DecidableEq

deriving instance DecidableEq for Except

/-- `mac_to_utc` from `safari.rs`: add the epoch offset, then convert to
a UTC instant, failing with a `Parse` error when out of range. -/
def mac_to_utc (mac_timestamp : Int) : Except ExtractionError Int :=
  match timestamp_opt (mac_timestamp + MAC_TO_UNIX_EPOCH_OFFSET) with
  | some dt => .ok dt
  | none => .error (.Parse (toString mac_timestamp))

/-- `UrlRecord` from `db/models.rs` (also the shape of a `url` table row
and of an extracted `Url`, whose fields are identical and are copied
field-by-field by `insert_history_data`). Timestamps are the unix
seconds stored via `.timestamp()`. -/
structure UrlRecord where
  id : Nat
  url : String
  title : Option String
  domain : String
  first_seen : Int
  last_seen : Int
deriving DecidableEq

/-- `VisitRecord` from `db/models.rs` (also a `visit` table row and an
extracted `Visit`). -/
structure VisitRecord where
  id : Nat
  url_id : Nat
  visited_at : Int
  visit_count : Int
  source_file : String
  device_name : Option String
  duration_sec : Option Int
deriving DecidableEq

/-- `MetadataRecord` from `db/models.rs` (also a `metadata` table row). -/
structure MetadataRecord where
  url_id : Nat
  summary : Option String
  keywords : Option String
  tags : Option String
  topic_cluster : Option String
  is_enriched : Bool
deriving DecidableEq

/-- `MetadataRecord::empty` from `db/models.rs`. -/
def MetadataRecord.empty (url_id : Nat) : MetadataRecord :=
  { url_id := url_id, summary := none, keywords := none, tags := none,
    topic_cluster := none, is_enriched := false }

/-- The canonical store: the three SQLite tables as lists of rows, in
insertion order. -/
structure Store where
  urls : List UrlRecord
  visits : List VisitRecord
  metadata : List MetadataRecord
deriving DecidableEq

/-- The freshly initialized store (after schema creation). -/
def Store.empty : Store := ⟨[], [], []⟩

/-- `insert_url` from `db/operations.rs`: look the url string up; if a
row exists, `UPDATE url SET last_seen = MAX(last_seen, ?) WHERE url = ?`;
otherwise insert the record as a new row. -/
def insert_url (s : Store) (r : UrlRecord) : Store :=
  match s.urls.find? (fun u => u.url == r.url) with
  | some _ =>
      { s with urls := s.urls.map (fun u =>
          if u.url == r.url then { u with last_seen := max u.last_seen r.last_seen } else u) }
  | none => { s with urls := s.urls ++ [r] }

/-- `insert_visit` from `db/operations.rs`: look up by
`(url_id, visited_at, source_file)`; skip when found, insert when
absent. -/
def insert_visit (s : Store) (r : VisitRecord) : Store :=
  match s.visits.find? (fun v =>
      v.url_id == r.url_id && v.visited_at == r.visited_at && v.source_file == r.source_file) with
  | some _ => s
  | none => { s with visits := s.visits ++ [r] }

/-- `insert_metadata` from `db/operations.rs`: look up by `url_id`; when
present, overwrite the enrichment fields only if the incoming record is
enriched; when absent, insert. -/
def insert_metadata (s : Store) (m : MetadataRecord) : Store :=
  match s.metadata.find? (fun x => x.url_id == m.url_id) with
  | some _ =>
      if m.is_enriched then
        { s with metadata := s.metadata.map (fun x =>
            if x.url_id == m.url_id then
              { x with summary := m.summary, keywords := m.keywords, tags := m.tags,
                       topic_cluster := m.topic_cluster, is_enriched := m.is_enriched }
            else x) }
      else s
  | none => { s with metadata := s.metadata ++ [m] }

/-- `RawHistoryData` from `extractor/models.rs`, with the
`ExtractionSource` flattened to the two fields the ingestion path reads
(`file_path` as a string, `device_name`). Extracted `Url`/`Visit`
records share their field lists with the store records and are copied
field-by-field by `insert_history_data`, so the same structures are
used. -/
structure RawHistoryData where
  source_file : String
  device_name : Option String
  urls : List UrlRecord
  visits : List VisitRecord
  warnings : List String
deriving DecidableEq

/-- `InsertStats` from `db/operations.rs`. -/
structure InsertStats where
  urls_inserted : Nat
  visits_inserted : Nat
  metadata_inserted : Nat
  errors : List String
deriving DecidableEq

/-- `InsertStats::default()`. -/
def InsertStats.init : InsertStats := ⟨0, 0, 0, []⟩

/-- One iteration of the URL loop of `insert_history_data`: merge the
URL, count it, then insert its empty metadata record and count that.
In this embedding the SQL statements always succeed, so the error
branches (which would skip the metadata insert and push an error
string) are never taken. -/
def url_step (p : Store × InsertStats) (u : UrlRecord) : Store × InsertStats :=
  let s1 := insert_url p.1 u
  let s2 := insert_metadata s1 (MetadataRecord.empty u.id)
  (s2, { p.2 with urls_inserted := p.2.urls_inserted + 1,
                  metadata_inserted := p.2.metadata_inserted + 1 })

/-- One iteration of the visit loop of `insert_history_data`. -/
def visit_step (p : Store × InsertStats) (v : VisitRecord) : Store × InsertStats :=
  (insert_visit p.1 v, { p.2 with visits_inserted := p.2.visits_inserted + 1 })

/-- `insert_history_data` from `db/operations.rs`: inside one
transaction, first merge every URL (each followed by its empty metadata
record), then merge every visit. Returns the resulting store and the
`InsertStats`. -/
def insert_history_data (s : Store) (b : RawHistoryData) : Store × InsertStats :=
  let p1 := b.urls.foldl url_step (s, InsertStats.init)
  b.visits.foldl visit_step p1

/-- The store-only view of the URL loop. -/
def url_phase (s : Store) (us : List UrlRecord) : Store :=
  us.foldl (fun s u => insert_metadata (insert_url s u) (MetadataRecord.empty u.id)) s

/-- The store-only view of the visit loop. -/
def visit_phase (s : Store) (vs : List VisitRecord) : Store :=
  vs.foldl insert_visit s

/-- The store after ingesting a batch. -/
def ingest (s : Store) (b : RawHistoryData) : Store :=
  (insert_history_data s b).1

/-- Some url row carries this url string. -/
def url_present (s : Store) (str : String) : Prop := ∃ u ∈ s.urls, u.url = str

/-- Every url row carrying this string has `last_seen ≥ t`. -/
def url_seen_bound (s : Store) (str : String) (t : Int) : Prop :=
  ∀ u ∈ s.urls, u.url = str → t ≤ u.last_seen

/-- Some metadata row has this `url_id`. -/
def md_present (s : Store) (i : Nat) : Prop := ∃ m ∈ s.metadata, m.url_id = i

/-- Some visit row matches this record's dedup triple. -/
def visit_present (s : Store) (v : VisitRecord) : Prop :=
  ∃ w ∈ s.visits, w.url_id = v.url_id ∧ w.visited_at = v.visited_at ∧
    w.source_file = v.source_file

/-- The state a URL record of a batch reaches once its loop iteration
has run: its string is a url row, every row carrying the string has
`last_seen` at least the incoming value, and its id has a metadata
row. -/
def url_done (s : Store) (r : UrlRecord) : Prop :=
  url_present s r.url ∧ url_seen_bound s r.url r.last_seen ∧ md_present s r.id

/-- Concrete url row used by the C4 witness. -/
def c4_row : UrlRecord :=
  { id := 1, url := "https://a.example/", title := none, domain := "a.example",
    first_seen := 5, last_seen := 10 }

/-- Concrete store used by the C4 witness. -/
def c4_store : Store := ⟨[c4_row], [], []⟩

/-- Concrete incoming merge record used by the C4 witness (same url
string, freshly minted id, newer `last_seen`). -/
def c4_rec : UrlRecord :=
  { id := 2, url := "https://a.example/", title := some "t", domain := "a.example",
    first_seen := 7, last_seen := 20 }

/-- Concrete store used by the C9 witness. -/
def c9_store : Store :=
  ⟨[{ id := 1, url := "https://b.example/", title := none, domain := "b.example",
      first_seen := 0, last_seen := 3 }], [], [MetadataRecord.empty 1]⟩

/-- Concrete batch used by the C9 witness: its only URL is already in
`c9_store` under a different canonical id. -/
def c9_batch : RawHistoryData :=
  { source_file := "h.db", device_name := none,
    urls := [{ id := 7, url := "https://b.example/", title := none, domain := "b.example",
               first_seen := 1, last_seen := 9 }],
    visits := [], warnings := [] }

/-- The reachable states of the canonical store: the freshly
initialized store, plus everything obtainable by ingesting extraction
batches (`insert_history_data` is the only writer of the three tables
in the program; `main.rs` calls it once per successfully extracted
file). -/
inductive Reachable : Store → Prop where
  | empty : Reachable Store.empty
  | ingest (s : Store) (b : RawHistoryData) :
      Reachable s → Reachable (insert_history_data s b).1

/-- Invariant: no two url rows carry the same url string. -/
def url_strings_nodup (s : Store) : Prop := (s.urls.map (fun u => u.url)).Nodup

/-- Invariant: no two visit rows agree on the whole dedup triple
`(url_id, visited_at, source_file)`. -/
def visits_pairwise (s : Store) : Prop :=
  s.visits.Pairwise (fun v w =>
    ¬(v.url_id = w.url_id ∧ v.visited_at = w.visited_at ∧ v.source_file = w.source_file))

/-- The conjunction of the two store invariants. -/
def store_inv (s : Store) : Prop := url_strings_nodup s ∧ visits_pairwise s

/-- Concrete urls/visits for the C2 witness: two distinct url strings
whose visits share `visited_at` and `source_file`. -/
def c2_u1 : UrlRecord :=
  { id := 1, url := "https://x.example/", title := none, domain := "x.example",
    first_seen := 0, last_seen := 0 }

/-- Second concrete url row for the C2 witness. -/
def c2_u2 : UrlRecord :=
  { id := 2, url := "https://y.example/", title := none, domain := "y.example",
    first_seen := 0, last_seen := 0 }

/-- First concrete visit for the C2 witness. -/
def c2_v1 : VisitRecord :=
  { id := 11, url_id := 1, visited_at := 100, visit_count := 1, source_file := "h.db",
    device_name := none, duration_sec := none }

/-- Second concrete visit for the C2 witness. -/
def c2_v2 : VisitRecord :=
  { id := 12, url_id := 2, visited_at := 100, visit_count := 1, source_file := "h.db",
    device_name := none, duration_sec := none }

/-- Concrete batch for the C2 witness. -/
def c2_batch : RawHistoryData :=
  { source_file := "h.db", device_name := none, urls := [c2_u1, c2_u2],
    visits := [c2_v1, c2_v2], warnings := [] }

/-- Insert into a sorted list (used to model SQL `ORDER BY`; SQLite
promises no particular order among ties, so any correct sort is a
faithful model). Structural recursion keeps it kernel-computable. -/
def insert_sorted {α : Type} (le : α → α → Bool) (a : α) : List α → List α
  | [] => [a]
  | b :: l => if le a b then a :: b :: l else b :: insert_sorted le a l

/-- Insertion sort by a boolean comparison. -/
def sort_by {α : Type} (le : α → α → Bool) : List α → List α
  | [] => []
  | a :: l => insert_sorted le a (sort_by le l)

/-- `DatabaseError` from `db/error.rs` (only the variant reached by the
modelled query paths). -/
inductive DatabaseError where
  | Query (msg : String)
deriving DecidableEq

/-- ASCII-lowercased character list of a string (SQLite's default
`LIKE` folds ASCII case only, which is what `Char.toLower` does for
ASCII input). -/
def lower_chars (s : String) : List Char := s.data.map Char.toLower

/-- Whether the first list is a prefix of the second. -/
def starts_with : List Char → List Char → Bool
  | [], _ => true
  | _ :: _, [] => false
  | p :: ps, c :: cs => p == c && starts_with ps cs

/-- Whether `pat` occurs as a contiguous sublist of `text`. -/
def contains_sub (pat : List Char) : List Char → Bool
  | [] => pat.isEmpty
  | c :: rest => starts_with pat (c :: rest) || contains_sub pat rest

/-- Model of SQLite `s LIKE '%pat%'`: case-insensitive (ASCII)
substring containment. The user's pattern is treated literally (the
embedding does not model `%`/`_` wildcards inside the user input). -/
def like_contains (pat s : String) : Bool :=
  contains_sub (lower_chars pat) (lower_chars s)

/-- `LIKE` against a nullable column: SQL `NULL LIKE pat` is `NULL`,
which a `WHERE` treats as not satisfied. -/
def opt_like (pat : String) : Option String → Bool
  | some str => like_contains pat str
  | none => false

/-- `SearchParams` from `db/operations.rs`. Dates are their
`.timestamp()` unix seconds (the SQL binds `start.timestamp()`). -/
structure SearchParams where
  query : Option String
  domain : Option String
  start_date : Option Int
  end_date : Option Int
  limit : Option Nat
  offset : Option Nat
deriving DecidableEq

/-- `SearchResult` from `db/operations.rs`. -/
structure SearchResult where
  url : UrlRecord
  metadata : Option MetadataRecord
  visit_count : Nat
  last_visit : Option Int
deriving DecidableEq

/-- `SearchResults` from `db/operations.rs`. -/
structure SearchResults where
  urls : List SearchResult
  total_count : Nat
deriving DecidableEq

/-- The `query` predicate of `search_history`: `u.url LIKE ? OR u.title
LIKE ? OR EXISTS (SELECT 1 FROM metadata m WHERE m.url_id = u.id AND
(m.summary LIKE ? OR m.keywords LIKE ? OR m.tags LIKE ?))`. -/
def query_cond (s : Store) (q : String) (u : UrlRecord) : Bool :=
  like_contains q u.url || opt_like q u.title ||
    s.metadata.any (fun m => m.url_id == u.id &&
      (opt_like q m.summary || opt_like q m.keywords || opt_like q m.tags))

/-- The WHERE conjuncts of `search_history` that mention only the url
row (query text and `u.domain = ?`). -/
def url_conds (s : Store) (p : SearchParams) (u : UrlRecord) : Bool :=
  (match p.query with
   | some q => query_cond s q u
   | none => true) &&
  (match p.domain with
   | some d => u.domain == d
   | none => true)

/-- The WHERE conjuncts of `search_history` on the (left-joined) visit
side: `v.visited_at >= ?` and `v.visited_at <= ?`. On the null-extended
row (`none`) the SQL comparison yields NULL, which the WHERE rejects. -/
def visit_conds (p : SearchParams) (v : Option VisitRecord) : Bool :=
  (match p.start_date with
   | some t => match v with
     | some vv => decide (t ≤ vv.visited_at)
     | none => false
   | none => true) &&
  (match p.end_date with
   | some t => match v with
     | some vv => decide (vv.visited_at ≤ t)
     | none => false
   | none => true)

/-- `FROM url u LEFT JOIN visit v ON u.id = v.url_id`, restricted to
one url row: its matching visits, or the single null-extended row. -/
def left_join_rows (s : Store) (u : UrlRecord) : List (Option VisitRecord) :=
  if (s.visits.filter (fun v => v.url_id == u.id)).isEmpty then [none]
  else (s.visits.filter (fun v => v.url_id == u.id)).map some

/-- The joined rows of one url group that survive the full WHERE
clause. -/
def search_group (s : Store) (p : SearchParams) (u : UrlRecord) : List (Option VisitRecord) :=
  if url_conds s p u then (left_join_rows s u).filter (visit_conds p) else []

/-- `MAX(v.visited_at)` over the group's non-null rows. -/
def agg_last_visit (vs : List VisitRecord) : Option Int :=
  match vs with
  | [] => none
  | v :: rest => some (rest.foldl (fun acc w => max acc w.visited_at) v.visited_at)

/-- One output row of `search_history`: the url row, its metadata via
`get_metadata_for_url` (first row with the url id), `COUNT(v.id)` over
the group's non-null rows and `MAX(v.visited_at)`. -/
def mk_search_row (s : Store) (u : UrlRecord) (g : List (Option VisitRecord)) : SearchResult :=
  let nn := g.filterMap id
  { url := u, metadata := s.metadata.find? (fun x => x.url_id == u.id),
    visit_count := nn.length, last_visit := agg_last_visit nn }

/-- `ORDER BY last_visit DESC`: SQLite sorts NULL below every value, so
descending order puts NULL rows last. -/
def order_desc (a b : SearchResult) : Bool :=
  match a.last_visit, b.last_visit with
  | some x, some y => decide (y ≤ x)
  | some _, none => true
  | none, some _ => false
  | none, none => true

/-- The url rows whose group survives the WHERE clause (`GROUP BY u.id`
keeps a group exactly when at least one joined row passed). -/
def matched_urls (s : Store) (p : SearchParams) : List UrlRecord :=
  s.urls.filter (fun u => !(search_group s p u).isEmpty)

/-- The full ordered result-row list of the main search query, before
LIMIT/OFFSET. -/
def matched_rows (s : Store) (p : SearchParams) : List SearchResult :=
  sort_by order_desc ((matched_urls s p).map (fun u => mk_search_row s u (search_group s p u)))

/-- The total-count query: `SELECT COUNT(DISTINCT u.id) FROM url u LEFT
JOIN visit v ON u.id = v.url_id` with the identical WHERE clauses. -/
def count_distinct_matches (s : Store) (p : SearchParams) : Nat :=
  ((matched_urls s p).map (fun u => u.id)).dedup.length

/-- `search_history` from `db/operations.rs`. The SQL text appends
` LIMIT n` only when a limit is given and ` OFFSET m` only when an
offset is given, so an offset without a limit produces `... OFFSET m`
with no LIMIT clause, which SQLite rejects when preparing the
statement — that call returns a query error. The separate total-count
query runs only when a limit or offset was supplied; otherwise
`total_count` is the number of returned rows. -/
def search_history (s : Store) (p : SearchParams) : Except DatabaseError SearchResults :=
  match p.limit, p.offset with
  | none, some _ => .error (.Query "OFFSET without LIMIT")
  | some n, some m =>
      .ok { urls := ((matched_rows s p).drop m).take n,
            total_count := count_distinct_matches s p }
  | some n, none =>
      .ok { urls := (matched_rows s p).take n,
            total_count := count_distinct_matches s p }
  | none, none =>
      .ok { urls := matched_rows s p, total_count := (matched_rows s p).length }

/-- Concrete url row for the C6 witness. -/
def c6_u : UrlRecord :=
  { id := 1, url := "https://z.example/", title := none, domain := "z.example",
    first_seen := 0, last_seen := 0 }

/-- Concrete store for the C6 witness. -/
def c6_store : Store := ⟨[c6_u], [], []⟩

/-- Concrete search parameters for the C6 witness (a limit is given, so
the second count query runs). -/
def c6_params : SearchParams := ⟨none, none, none, none, some 5, none⟩

/-- The result `search_history c6_store c6_params` computes. -/
def c6_result : SearchResults := ⟨[⟨c6_u, none, 0, none⟩], 1⟩

/-- Concrete url row for the C10 witness. -/
def c10_u : UrlRecord :=
  { id := 3, url := "https://w.example/", title := none, domain := "w.example",
    first_seen := 0, last_seen := 0 }

/-- Store with a zero-visit url row, for the C10 witness. -/
def c10_store : Store := ⟨[c10_u], [], []⟩

/-- The result of the predicate-free search on `c10_store`. -/
def c10_r1 : SearchResults := ⟨[⟨c10_u, none, 0, none⟩], 1⟩

/-- Concrete visit for the second C10 witness store. -/
def c10_v : VisitRecord :=
  { id := 21, url_id := 3, visited_at := 100, visit_count := 1, source_file := "h.db",
    device_name := none, duration_sec := none }

/-- Store with one visited url, for the C10 witness. -/
def c10_store2 : Store := ⟨[c10_u], [c10_v], []⟩

/-- Search parameters with a start date, for the C10 witness. -/
def c10_p2 : SearchParams := ⟨none, none, some 50, none, none, none⟩

/-- The result of searching `c10_store2` with `c10_p2`. -/
def c10_r2 : SearchResults := ⟨[⟨c10_u, none, 1, some 100⟩], 1⟩

/-- `TimelineParams` from `db/operations.rs` (dates as unix seconds via
`.timestamp()`). -/
structure TimelineParams where
  start_date : Option Int
  end_date : Option Int
  domain : Option String
deriving DecidableEq

/-- `TimelineGrouping` from `db/operations.rs`. -/
inductive TimelineGrouping where
  | Hour
  | Day
  | Domain
deriving DecidableEq

/-- `UrlWithVisits` from `db/models.rs` as populated by
`fetch_urls_with_query` (the unread `first_seen`/`last_seen` clock
fields are omitted; the query does not select them). -/
structure UrlWithVisits where
  url : UrlRecord
  visit_count : Nat
  last_visit : Option Int
deriving DecidableEq

/-- `TimelineItem` from `db/operations.rs`. The hourly `hour` and the
daily `date` are modelled as integers (hour of day 0–23; the `date`
field carries the bucket's representative timestamp, from which the
source recomputes the day string). -/
inductive TimelineItem where
  | Hourly (hour : Int) (count : Nat) (timestamp : Int) (urls : Option (List UrlWithVisits))
  | Daily (date : Int) (count : Nat) (urls : Option (List UrlWithVisits))
  | Domain (domain : String) (count : Nat) (urls : Option (List UrlWithVisits))
deriving DecidableEq

/-- `FROM visit JOIN url ON visit.url_id = url.id` (inner join). -/
def timeline_join (s : Store) : List (VisitRecord × UrlRecord) :=
  s.visits.flatMap (fun v =>
    (s.urls.filter (fun u => u.id == v.url_id)).map (fun u => (v, u)))

/-- The `visited_at >= ?` / `visited_at <= ?` timeline conjuncts. -/
def start_end_conds (p : TimelineParams) (v : VisitRecord) : Bool :=
  (match p.start_date with
   | some t => decide (t ≤ v.visited_at)
   | none => true) &&
  (match p.end_date with
   | some t => decide (v.visited_at ≤ t)
   | none => true)

/-- The `url.domain = ?` timeline conjunct. -/
def domain_cond (p : TimelineParams) (u : UrlRecord) : Bool :=
  match p.domain with
  | some d => u.domain == d
  | none => true

/-- The full WHERE clause shared by the three main timeline queries. -/
def timeline_filters (p : TimelineParams) (pr : VisitRecord × UrlRecord) : Bool :=
  start_end_conds p pr.1 && domain_cond p pr.2

/-- `strftime('%H', datetime(ts, 'unixepoch'))` as a number 0–23. -/
def hour_of (ts : Int) : Int := (ts.fdiv 3600) % 24

/-- Day index of `strftime('%Y-%m-%d', datetime(ts, 'unixepoch'))`: two
timestamps format to the same day string exactly when they have the
same floor-division day number. -/
def day_of (ts : Int) : Int := ts.fdiv 86400

/-- `MIN(visited_at)` over a (nonempty) group of joined rows. -/
def min_ts (l : List (VisitRecord × UrlRecord)) : Int :=
  match l with
  | [] => 0
  | pr :: rest => rest.foldl (fun acc q => min acc q.1.visited_at) pr.1.visited_at

/-- `MAX(visit.visited_at)` over a (nonempty) group of joined rows. -/
def max_visit_ts (l : List (VisitRecord × UrlRecord)) : Int :=
  match l with
  | [] => 0
  | pr :: rest => rest.foldl (fun acc q => max acc q.1.visited_at) pr.1.visited_at

/-- The joined rows surviving the main timeline WHERE clause. -/
def filtered_join (s : Store) (p : TimelineParams) : List (VisitRecord × UrlRecord) :=
  (timeline_join s).filter (timeline_filters p)

/-- One `GROUP BY url.id` output row of a sample query. -/
def sample_entry (rows : List (VisitRecord × UrlRecord)) (i : Nat) : Option UrlWithVisits :=
  match rows.find? (fun pr => pr.2.id == i) with
  | some pr0 =>
      some { url := pr0.2,
             visit_count := (rows.filter (fun pr => pr.2.id == i)).length,
             last_visit := some (max_visit_ts (rows.filter (fun pr => pr.2.id == i))) }
  | none => none

/-- The shared shape of the three sample queries of
`fetch_sample_urls_for_timeline`: group the (already filtered) joined
rows by url id, aggregate `COUNT(visit.id)`/`MAX(visit.visited_at)`,
`ORDER BY visit_count DESC LIMIT 5`. -/
def sample_query (rows : List (VisitRecord × UrlRecord)) : List UrlWithVisits :=
  (sort_by (fun a b => decide (b.visit_count ≤ a.visit_count))
    (((rows.map (fun pr => pr.2.id)).dedup).filterMap (sample_entry rows))).take 5

/-- The hourly sample query: bucket hour plus the full
start/end/domain constraints. -/
def sample_hourly (s : Store) (p : TimelineParams) (h : Int) : List UrlWithVisits :=
  sample_query ((timeline_join s).filter (fun pr =>
    hour_of pr.1.visited_at == h && timeline_filters p pr))

/-- The daily sample query: bucket day plus the domain constraint
only — the source adds no `visited_at` conditions in this branch
(unlike the hourly and domain branches). -/
def sample_daily (s : Store) (p : TimelineParams) (day : Int) : List UrlWithVisits :=
  sample_query ((timeline_join s).filter (fun pr =>
    day_of pr.1.visited_at == day && domain_cond p pr.2))

/-- The domain sample query: bucket domain plus the start/end
constraints. -/
def sample_domain (s : Store) (p : TimelineParams) (d : String) : List UrlWithVisits :=
  sample_query ((timeline_join s).filter (fun pr =>
    pr.2.domain == d && start_end_conds p pr.1))

/-- The rows of one hour bucket. -/
def hour_group (s : Store) (p : TimelineParams) (h : Int) : List (VisitRecord × UrlRecord) :=
  (filtered_join s p).filter (fun pr => hour_of pr.1.visited_at == h)

/-- Hour buckets `(hour, COUNT(*), MIN(visited_at))`. -/
def hourly_buckets (s : Store) (p : TimelineParams) : List (Int × Nat × Int) :=
  (((filtered_join s p).map (fun pr => hour_of pr.1.visited_at)).dedup).map
    (fun h => (h, (hour_group s p h).length, min_ts (hour_group s p h)))

/-- `ORDER BY count DESC, hour ASC`. -/
def hourly_order (a b : Int × Nat × Int) : Bool :=
  decide (b.2.1 < a.2.1) || (a.2.1 == b.2.1 && decide (a.1 ≤ b.1))

/-- `get_hourly_timeline_data` followed by
`fetch_sample_urls_for_timeline` on its items. -/
def get_hourly_timeline_data (s : Store) (p : TimelineParams) : List TimelineItem :=
  (sort_by hourly_order (hourly_buckets s p)).map
    (fun bk => TimelineItem.Hourly bk.1 bk.2.1 bk.2.2 (some (sample_hourly s p bk.1)))

/-- The rows of one day bucket. -/
def day_group (s : Store) (p : TimelineParams) (d : Int) : List (VisitRecord × UrlRecord) :=
  (filtered_join s p).filter (fun pr => day_of pr.1.visited_at == d)

/-- Day buckets `(day, COUNT(*), MIN(visited_at))`. -/
def daily_buckets (s : Store) (p : TimelineParams) : List (Int × Nat × Int) :=
  (((filtered_join s p).map (fun pr => day_of pr.1.visited_at)).dedup).map
    (fun d => (d, (day_group s p d).length, min_ts (day_group s p d)))

/-- `ORDER BY day DESC`. -/
def daily_order (a b : Int × Nat × Int) : Bool := decide (b.1 ≤ a.1)

/-- `get_daily_timeline_data` followed by the sample fetch. The item's
`date` is the bucket's `MIN(visited_at)`; the sample query's day key is
recomputed from that date, as in the source. -/
def get_daily_timeline_data (s : Store) (p : TimelineParams) : List TimelineItem :=
  (sort_by daily_order (daily_buckets s p)).map
    (fun bk => TimelineItem.Daily bk.2.2 bk.2.1 (some (sample_daily s p (day_of bk.2.2))))

/-- The rows of one domain bucket. -/
def domain_group (s : Store) (p : TimelineParams) (d : String) : List (VisitRecord × UrlRecord) :=
  (filtered_join s p).filter (fun pr => pr.2.domain == d)

/-- Domain buckets `(domain, COUNT(*))`. -/
def domain_buckets (s : Store) (p : TimelineParams) : List (String × Nat) :=
  (((filtered_join s p).map (fun pr => pr.2.domain)).dedup).map
    (fun d => (d, (domain_group s p d).length))

/-- `ORDER BY count DESC` for domain buckets. -/
def domain_order (a b : String × Nat) : Bool := decide (b.2 ≤ a.2)

/-- `get_domain_timeline_data` (`LIMIT 100`) followed by the sample
fetch. -/
def get_domain_timeline_data (s : Store) (p : TimelineParams) : List TimelineItem :=
  ((sort_by domain_order (domain_buckets s p)).take 100).map
    (fun bk => TimelineItem.Domain bk.1 bk.2 (some (sample_domain s p bk.1)))

/-- `get_timeline_data` from `db/operations.rs`: dispatch on the
grouping mode. -/
def get_timeline_data (s : Store) (p : TimelineParams) : TimelineGrouping → List TimelineItem
  | .Hour => get_hourly_timeline_data s p
  | .Day => get_daily_timeline_data s p
  | .Domain => get_domain_timeline_data s p

/-- First url row of the C7 inputs. -/
def c7_u1 : UrlRecord :=
  { id := 1, url := "https://a.example/x", title := none, domain := "a.example",
    first_seen := 0, last_seen := 0 }

/-- Second url row of the C7 inputs. -/
def c7_u2 : UrlRecord :=
  { id := 2, url := "https://b.example/y", title := none, domain := "b.example",
    first_seen := 0, last_seen := 0 }

/-- A visit inside the C7 query window (13:00 of day 20000). -/
def c7_v1 : VisitRecord :=
  { id := 31, url_id := 1, visited_at := 1728046800, visit_count := 1,
    source_file := "h.db", device_name := none, duration_sec := none }

/-- A visit on the same calendar day but before the C7 start bound
(01:00 of day 20000). -/
def c7_v2 : VisitRecord :=
  { id := 32, url_id := 2, visited_at := 1728003600, visit_count := 1,
    source_file := "h.db", device_name := none, duration_sec := none }

/-- Concrete store for C7. -/
def c7_store : Store := ⟨[c7_u1, c7_u2], [c7_v1, c7_v2], []⟩

/-- Concrete timeline parameters for C7: start at 12:00 of day 20000,
no end, no domain filter. -/
def c7_params : TimelineParams := ⟨some 1728043200, none, none⟩

/-- The sample list the daily bucket of `c7_store`/`c7_params`
computes. -/
def c7_us : List UrlWithVisits :=
  [⟨c7_u1, 1, some 1728046800⟩, ⟨c7_u2, 1, some 1728003600⟩]

/-- A row of the foreign `history_items` table, holding the cell
values the extraction query reads. Cells are modelled well-typed; a
row whose required cell is NULL or mistyped fails `row.get` in the
source, which is the same soft per-row path modelled here through the
timestamp failures. -/
structure ForeignItemRow where
  id : Int
  url : String
  title : Option String
  domain : String
  visit_count : Int
  visit_time : Int
  last_visited_time : Int
deriving DecidableEq

/-- A row of the foreign `history_visits` table. -/
structure ForeignVisitRow where
  id : Int
  history_item : Int
  visit_time : Int
deriving DecidableEq

/-- A foreign table: its declared column names plus its rows. -/
structure ForeignTable (ρ : Type) where
  columns : List String
  rows : List ρ
deriving DecidableEq

/-- A foreign SQLite file as the extractor sees it: each required table
is present or absent. -/
structure ForeignDb where
  history_items : Option (ForeignTable ForeignItemRow)
  history_visits : Option (ForeignTable ForeignVisitRow)
deriving DecidableEq

/-- The columns selected by the URL extraction query. -/
def url_columns : List String :=
  ["id", "url", "title", "domain", "visit_count", "visit_time", "last_visited_time"]

/-- The columns selected by the visit extraction query. -/
def visit_columns : List String := ["id", "history_item", "visit_time"]

/-- `verify_safari_schema` from `safari.rs`: check the two required
tables exist by name (`history_items` first), failing with an
`UnsupportedSchema` error naming the missing table. It checks table
presence only, not columns. -/
def verify_safari_schema (db : ForeignDb) : Except ExtractionError Unit :=
  if db.history_items.isNone then .error (.UnsupportedSchema "history_items")
  else if db.history_visits.isNone then .error (.UnsupportedSchema "history_visits")
  else .ok ()

/-- `process_url_row` from `safari.rs`. Note: the source reads result
columns 4 and 5 as the two timestamps, which are the selected
`visit_count` and `visit_time` columns (`last_visited_time`, selected
as column 6, is never read); the embedding reproduces those reads.
`fresh` models the freshly minted v4 uuid. -/
def process_url_row (fresh : Nat) (row : ForeignItemRow) : Except ExtractionError UrlRecord :=
  match mac_to_utc row.visit_count with
  | .error e => .error e
  | .ok first_seen =>
      match mac_to_utc row.visit_time with
      | .error e => .error e
      | .ok last_seen =>
          .ok { id := fresh, url := row.url, title := row.title, domain := row.domain,
                first_seen := first_seen, last_seen := last_seen }

/-- A `history_items` row processes without a per-row failure exactly
when both of its read timestamps normalize. -/
def url_row_ok (row : ForeignItemRow) : Bool :=
  (mac_to_utc row.visit_count).isOk && (mac_to_utc row.visit_time).isOk

/-- One iteration of the URL extraction loop: a processed row is
appended to the batch and to the foreign-id map; a failing row appends
a warning and is skipped. -/
def url_fold_step (acc : RawHistoryData × List (Int × Nat)) (row : ForeignItemRow) :
    RawHistoryData × List (Int × Nat) :=
  match process_url_row acc.1.urls.length row with
  | .ok u => ({ acc.1 with urls := acc.1.urls ++ [u] }, acc.2 ++ [(row.id, u.id)])
  | .error _ => ({ acc.1 with warnings := acc.1.warnings ++ ["Failed to process URL"] }, acc.2)

/-- `extract_urls` from `safari.rs`. Preparing the SELECT fails with a
database error when one of its selected columns does not exist in the
present table (SQLite's no-such-column error at `prepare`), and that
error aborts the whole extraction via `?`; otherwise every row is
processed softly. -/
def extract_urls (t : ForeignTable ForeignItemRow) (b : RawHistoryData) :
    Except ExtractionError (RawHistoryData × List (Int × Nat)) :=
  if url_columns.all (fun c => t.columns.contains c) then
    .ok (t.rows.foldl url_fold_step (b, []))
  else .error (.Database "history_items")

/-- Whether a visit row's foreign URL id resolves in the built map. -/
def visit_resolves (map : List (Int × Nat)) (row : ForeignVisitRow) : Bool :=
  (mac_to_utc row.visit_time).isOk && map.any (fun e => e.1 == row.history_item)

/-- `process_visit_row` from `safari.rs`: normalize the timestamp,
resolve the foreign URL id through the map (dropping the visit with an
error when unresolved), and build the canonical visit with
`visit_count` fixed at 1, the batch's `source_file`/`device_name`, and
no duration. -/
def process_visit_row (fresh : Nat) (source_file : String) (device_name : Option String)
    (map : List (Int × Nat)) (row : ForeignVisitRow) : Except ExtractionError VisitRecord :=
  match mac_to_utc row.visit_time with
  | .error e => .error e
  | .ok visited_at =>
      match map.find? (fun e => e.1 == row.history_item) with
      | some e =>
          .ok { id := fresh, url_id := e.2, visited_at := visited_at, visit_count := 1,
                source_file := source_file, device_name := device_name, duration_sec := none }
      | none => .error (.Parse "Visit references unknown URL ID")

/-- One iteration of the visit extraction loop. -/
def visit_fold_step (map : List (Int × Nat)) (acc : RawHistoryData) (row : ForeignVisitRow) :
    RawHistoryData :=
  match process_visit_row acc.visits.length acc.source_file acc.device_name map row with
  | .ok v => { acc with visits := acc.visits ++ [v] }
  | .error _ => { acc with warnings := acc.warnings ++ ["Failed to process visit"] }

/-- `extract_visits` from `safari.rs`: rows ordered by native visit
time descending (`ORDER BY visit_time DESC`), with the same
missing-column prepare failure as the URL query. -/
def extract_visits (t : ForeignTable ForeignVisitRow) (b : RawHistoryData)
    (map : List (Int × Nat)) : Except ExtractionError RawHistoryData :=
  if visit_columns.all (fun c => t.columns.contains c) then
    .ok ((sort_by (fun a b => decide (b.visit_time ≤ a.visit_time)) t.rows).foldl
      (visit_fold_step map) b)
  else .error (.Database "history_visits")

/-- `extract_history` from `safari.rs`: run the schema check (both
required tables must exist by name, errors naming the missing table),
then extract URLs building the foreign-id map, then extract visits
through that map; the two extraction phases propagate their own
(batch-level) errors via `?`. -/
def extract_history (db : ForeignDb) (source_file : String) (device_name : Option String) :
    Except ExtractionError RawHistoryData :=
  match db.history_items with
  | none => .error (.UnsupportedSchema "history_items")
  | some ti =>
      match db.history_visits with
      | none => .error (.UnsupportedSchema "history_visits")
      | some tv =>
          match extract_urls ti { source_file := source_file, device_name := device_name,
                                  urls := [], visits := [], warnings := [] } with
          | .error e => .error e
          | .ok bm =>
              match extract_visits tv bm.1 bm.2 with
              | .error e => .error e
              | .ok b => .ok b

/-- A visit row of a schema-valid file is kept exactly when its
timestamp normalizes and some successfully processed URL row carries
its foreign id. -/
def visit_row_ok (ti : ForeignTable ForeignItemRow) (row : ForeignVisitRow) : Bool :=
  (mac_to_utc row.visit_time).isOk &&
    ti.rows.any (fun r => url_row_ok r && r.id == row.history_item)

/-- C5 counterexample input: both required tables are present (so the
schema check passes) but `history_items` lacks the selected `domain`
column, so statement preparation fails batch-level. -/
def c5_db : ForeignDb :=
  { history_items := some
      ⟨["id", "url", "title", "visit_count", "visit_time", "last_visited_time"],
       [⟨1, "https://a.example/", none, "a.example", 0, 0, 0⟩]⟩,
    history_visits := some ⟨visit_columns, []⟩ }

/-- `history_items` table for the C5 witness: one good URL row and one
URL row with an out-of-range timestamp. -/
def c5_ti : ForeignTable ForeignItemRow :=
  ⟨url_columns,
   [⟨1, "https://a.example/", none, "a.example", 3, 5, 7⟩,
    ⟨2, "https://bad.example/", none, "bad.example", -999999999999999, 0, 0⟩]⟩

/-- `history_visits` table for the C5 witness: one resolvable visit and
one visit referencing an unknown URL id. -/
def c5_tv : ForeignTable ForeignVisitRow := ⟨visit_columns, [⟨1, 1, 50⟩, ⟨2, 99, 50⟩]⟩

/-- A schema- and column-valid foreign db for the C5 witness. -/
def c5_good_db : ForeignDb := { history_items := some c5_ti, history_visits := some c5_tv }

/-! ## Theorems -/

/-- When the range test succeeds it returns its input unchanged. -/
theorem timestamp_opt_eq_some {s d : Int} (h : timestamp_opt s = some d) : d = s := by
  unfold timestamp_opt at h
  split at h
  · exact (Option.some.injEq _ _ ▸ h).symm
  · exact absurd h (by simp)

/-- C3: for every native-epoch integer `t` on which normalization
succeeds, the resulting unix timestamp is exactly `t + 978307200`, so
subtracting the offset recovers `t` exactly; and the native-epoch value
1000000000 normalizes to unix timestamp 1978307200. -/
theorem mac_to_utc_roundtrip :
    (∀ t u : Int, mac_to_utc t = .ok u →
      u = t + MAC_TO_UNIX_EPOCH_OFFSET ∧ u - MAC_TO_UNIX_EPOCH_OFFSET = t) ∧
    mac_to_utc 1000000000 = .ok 1978307200 := by
  constructor
  · intro t u h
    unfold mac_to_utc at h
    cases h' : timestamp_opt (t + MAC_TO_UNIX_EPOCH_OFFSET) with
    | none => rw [h'] at h; exact absurd h (by simp)
    | some dt =>
        rw [h'] at h
        have hdt := timestamp_opt_eq_some h'
        simp only [Except.ok.injEq] at h
        omega
  · decide

/-- Witness for C3: instantiates the round-trip at `t = 1000000000`. -/
theorem mac_to_utc_roundtrip_witness :
    (1978307200 : Int) = 1000000000 + MAC_TO_UNIX_EPOCH_OFFSET ∧
    (1978307200 : Int) - MAC_TO_UNIX_EPOCH_OFFSET = 1000000000 :=
  mac_to_utc_roundtrip.1 1000000000 1978307200 (by decide)

/-- C8: timestamp normalization is a total function of its argument
(being a Lean `def`, it is pure and deterministic by construction); it
fails exactly when `t + offset` does not map to a valid calendar
instant, in which case the error is a `Parse` error, and otherwise it
returns the canonical instant `t + offset`. -/
theorem mac_to_utc_total_pure :
    ∀ t : Int,
      ((mac_to_utc t).isOk = true ↔
        (timestamp_opt (t + MAC_TO_UNIX_EPOCH_OFFSET)).isSome = true) ∧
      (timestamp_opt (t + MAC_TO_UNIX_EPOCH_OFFSET) = none →
        mac_to_utc t = .error (.Parse (toString t))) ∧
      (∀ u, mac_to_utc t = .ok u → u = t + MAC_TO_UNIX_EPOCH_OFFSET) := by
  intro t
  refine ⟨?_, ?_, ?_⟩
  · unfold mac_to_utc
    cases h : timestamp_opt (t + MAC_TO_UNIX_EPOCH_OFFSET) <;>
      simp [Except.isOk, Except.toBool]
  · intro h
    unfold mac_to_utc
    rw [h]
  · intro u h
    exact (mac_to_utc_roundtrip.1 t u h).1

/-- Witness for C8: concrete instances of both directions — a valid
input (1000000000) and an out-of-range input. -/
theorem mac_to_utc_total_pure_witness :
    ((mac_to_utc 1000000000).isOk = true ↔
      (timestamp_opt (1000000000 + MAC_TO_UNIX_EPOCH_OFFSET)).isSome = true) ∧
    mac_to_utc (-9000000000000) = .error (.Parse (toString (-9000000000000 : Int))) ∧
    (1978307200 : Int) = 1000000000 + MAC_TO_UNIX_EPOCH_OFFSET := by
  refine ⟨(mac_to_utc_total_pure 1000000000).1, ?_, ?_⟩
  · exact (mac_to_utc_total_pure (-9000000000000)).2.1 (by decide)
  · exact (mac_to_utc_total_pure 1000000000).2.2 1978307200 (by decide)

theorem insert_metadata_urls (s : Store) (m : MetadataRecord) :
    (insert_metadata s m).urls = s.urls := by
  unfold insert_metadata
  split
  · split <;> rfl
  · rfl

theorem insert_metadata_visits (s : Store) (m : MetadataRecord) :
    (insert_metadata s m).visits = s.visits := by
  unfold insert_metadata
  split
  · split <;> rfl
  · rfl

theorem insert_visit_urls (s : Store) (v : VisitRecord) :
    (insert_visit s v).urls = s.urls := by
  unfold insert_visit
  split <;> rfl

theorem insert_visit_metadata (s : Store) (v : VisitRecord) :
    (insert_visit s v).metadata = s.metadata := by
  unfold insert_visit
  split <;> rfl

theorem insert_url_metadata (s : Store) (r : UrlRecord) :
    (insert_url s r).metadata = s.metadata := by
  unfold insert_url
  split <;> rfl

theorem insert_url_visits (s : Store) (r : UrlRecord) :
    (insert_url s r).visits = s.visits := by
  unfold insert_url
  split <;> rfl

/-- After merging a URL, its string is present. -/
theorem url_present_after (s : Store) (r : UrlRecord) :
    url_present (insert_url s r) r.url := by
  unfold insert_url
  cases h : s.urls.find? (fun u => u.url == r.url) with
  | some u =>
      refine ⟨if u.url == r.url then { u with last_seen := max u.last_seen r.last_seen } else u,
        List.mem_map_of_mem _ (List.mem_of_find?_eq_some h), ?_⟩
      have hu : u.url = r.url := by simpa using List.find?_some h
      simp [hu]
  | none => exact ⟨r, by simp, rfl⟩

/-- Merging a URL never removes any present string. -/
theorem url_present_mono (s : Store) (r : UrlRecord) {str : String}
    (h : url_present s str) : url_present (insert_url s r) str := by
  obtain ⟨u, hu, hs⟩ := h
  unfold insert_url
  split
  · exact ⟨if u.url == r.url then { u with last_seen := max u.last_seen r.last_seen } else u,
      List.mem_map_of_mem _ hu, by split <;> simpa⟩
  · exact ⟨u, by simp [hu], hs⟩

/-- After merging a URL, every row carrying its string has
`last_seen ≥` the incoming value. -/
theorem url_seen_bound_after (s : Store) (r : UrlRecord) :
    url_seen_bound (insert_url s r) r.url r.last_seen := by
  unfold insert_url
  cases h : s.urls.find? (fun u => u.url == r.url) with
  | some u =>
      intro w hw hwu
      simp only [List.mem_map] at hw
      obtain ⟨u0, _, hu0⟩ := hw
      rw [← hu0]
      split
      · exact le_max_right _ _
      · next hc =>
          rw [← hu0] at hwu
          rw [if_neg hc] at hwu
          simp [hwu] at hc
  | none =>
      intro w hw hwu
      rw [List.mem_append] at hw
      rcases hw with hw | hw
      · have := List.find?_eq_none.mp h w hw
        simp [hwu] at this
      · simp at hw
        subst hw
        exact le_refl _

/-- Merging any URL only raises `last_seen` values; a lower bound for a
string that is already present survives. -/
theorem url_seen_bound_mono (s : Store) (r : UrlRecord) {str : String} {t : Int}
    (hp : url_present s str) (hb : url_seen_bound s str t) :
    url_seen_bound (insert_url s r) str t := by
  unfold insert_url
  cases h : s.urls.find? (fun u => u.url == r.url) with
  | some u =>
      intro w hw hwu
      simp only [List.mem_map] at hw
      obtain ⟨u0, hu0m, hu0⟩ := hw
      rw [← hu0] at hwu ⊢
      split
      · next hc =>
          rw [if_pos hc] at hwu
          have hu0u : u0.url = str := hwu
          have := hb u0 hu0m hu0u
          refine le_trans this ?_
          exact le_max_left _ _
      · next hc =>
          rw [if_neg hc] at hwu
          exact hb u0 hu0m hwu
  | none =>
      intro w hw hwu
      rw [List.mem_append] at hw
      rcases hw with hw | hw
      · exact hb w hw hwu
      · simp at hw
        subst hw
        obtain ⟨u0, hu0m, hu0⟩ := hp
        have := List.find?_eq_none.mp h u0 hu0m
        rw [hu0, ← hwu] at this
        simp at this

/-- After inserting a metadata record, its `url_id` is present. -/
theorem md_present_after (s : Store) (m : MetadataRecord) :
    md_present (insert_metadata s m) m.url_id := by
  unfold insert_metadata
  split
  · next x h =>
      have hx : x.url_id = m.url_id := by simpa using List.find?_some h
      have hxm := List.mem_of_find?_eq_some h
      split
      · exact ⟨if x.url_id == m.url_id then
          { x with summary := m.summary, keywords := m.keywords, tags := m.tags,
                   topic_cluster := m.topic_cluster, is_enriched := m.is_enriched }
          else x, List.mem_map_of_mem _ hxm, by simp [hx]⟩
      · exact ⟨x, hxm, hx⟩
  · exact ⟨m, by simp, rfl⟩

/-- Inserting metadata never removes a present `url_id`. -/
theorem md_present_mono (s : Store) (m : MetadataRecord) {i : Nat}
    (h : md_present s i) : md_present (insert_metadata s m) i := by
  obtain ⟨x, hx, hi⟩ := h
  unfold insert_metadata
  split
  · split
    · refine ⟨if x.url_id == m.url_id then
        { x with summary := m.summary, keywords := m.keywords, tags := m.tags,
                 topic_cluster := m.topic_cluster, is_enriched := m.is_enriched }
        else x, List.mem_map_of_mem _ hx, ?_⟩
      · split <;> simpa
    · exact ⟨x, hx, hi⟩
  · exact ⟨x, by simp [hx], hi⟩

/-- After merging a visit, its dedup triple is present. -/
theorem visit_present_after (s : Store) (v : VisitRecord) :
    visit_present (insert_visit s v) v := by
  unfold insert_visit
  cases h : s.visits.find? (fun w =>
      w.url_id == v.url_id && w.visited_at == v.visited_at && w.source_file == v.source_file) with
  | some w =>
      have hw := List.find?_some h
      simp only [Bool.and_eq_true, beq_iff_eq] at hw
      exact ⟨w, List.mem_of_find?_eq_some h, hw.1.1, hw.1.2, hw.2⟩
  | none => exact ⟨v, by simp, rfl, rfl, rfl⟩

/-- Merging a visit never removes a present triple. -/
theorem visit_present_mono (s : Store) (v : VisitRecord) {w : VisitRecord}
    (h : visit_present s w) : visit_present (insert_visit s v) w := by
  obtain ⟨x, hx, h1, h2, h3⟩ := h
  unfold insert_visit
  split
  · exact ⟨x, hx, h1, h2, h3⟩
  · exact ⟨x, by simp [hx], h1, h2, h3⟩

/-- A URL merge for a string that is already present with `last_seen`
at least the incoming value leaves the store unchanged. -/
theorem insert_url_noop (s : Store) (r : UrlRecord)
    (hp : url_present s r.url) (hb : url_seen_bound s r.url r.last_seen) :
    insert_url s r = s := by
  unfold insert_url
  cases h : s.urls.find? (fun u => u.url == r.url) with
  | none =>
      obtain ⟨u, hu, hs⟩ := hp
      have := List.find?_eq_none.mp h u hu
      simp [hs] at this
  | some u =>
      have hmap : s.urls.map (fun u =>
          if u.url == r.url then { u with last_seen := max u.last_seen r.last_seen } else u)
          = s.urls := by
        conv_rhs => rw [← List.map_id s.urls]
        refine List.map_congr_left ?_
        intro a ha
        simp only [id_eq]
        split
        · next hc =>
            have hle := hb a ha (by simpa using hc)
            rw [max_eq_left hle]
        · rfl
      rw [hmap]

/-- A non-enriched metadata insert for a `url_id` that already has a
metadata row leaves the store unchanged. -/
theorem insert_metadata_noop (s : Store) (m : MetadataRecord)
    (hp : md_present s m.url_id) (he : m.is_enriched = false) :
    insert_metadata s m = s := by
  unfold insert_metadata
  cases h : s.metadata.find? (fun x => x.url_id == m.url_id) with
  | none =>
      obtain ⟨x, hx, hi⟩ := hp
      have := List.find?_eq_none.mp h x hx
      simp [hi] at this
  | some x => simp [he]

/-- A visit merge whose triple is already present leaves the store
unchanged. -/
theorem insert_visit_noop (s : Store) (v : VisitRecord)
    (hp : visit_present s v) : insert_visit s v = s := by
  unfold insert_visit
  cases h : s.visits.find? (fun w =>
      w.url_id == v.url_id && w.visited_at == v.visited_at && w.source_file == v.source_file) with
  | none =>
      obtain ⟨w, hw, h1, h2, h3⟩ := hp
      have := List.find?_eq_none.mp h w hw
      simp [h1, h2, h3] at this
  | some w => rfl

theorem url_done_step (s : Store) (u' : UrlRecord) {r : UrlRecord} (h : url_done s r) :
    url_done (insert_metadata (insert_url s u') (MetadataRecord.empty u'.id)) r := by
  obtain ⟨h1, h2, h3⟩ := h
  refine ⟨?_, ?_, ?_⟩
  · unfold url_present
    rw [insert_metadata_urls]
    exact url_present_mono s u' h1
  · unfold url_seen_bound
    rw [insert_metadata_urls]
    exact url_seen_bound_mono s u' h1 h2
  · refine md_present_mono _ _ ?_
    unfold md_present
    rw [insert_url_metadata]
    exact h3

theorem url_done_self (s : Store) (r : UrlRecord) :
    url_done (insert_metadata (insert_url s r) (MetadataRecord.empty r.id)) r := by
  refine ⟨?_, ?_, ?_⟩
  · unfold url_present
    rw [insert_metadata_urls]
    exact url_present_after s r
  · unfold url_seen_bound
    rw [insert_metadata_urls]
    exact url_seen_bound_after s r
  · exact md_present_after (insert_url s r) (MetadataRecord.empty r.id)

theorem url_done_phase (us : List UrlRecord) :
    ∀ (s : Store) {r : UrlRecord}, url_done s r → url_done (url_phase s us) r := by
  induction us with
  | nil => intro s r h; exact h
  | cons u rest ih =>
      intro s r h
      exact ih _ (url_done_step s u h)

theorem url_done_phase_all (us : List UrlRecord) :
    ∀ (s : Store) (r : UrlRecord), r ∈ us → url_done (url_phase s us) r := by
  induction us with
  | nil => intro s r h; exact absurd h (List.not_mem_nil r)
  | cons u rest ih =>
      intro s r h
      rcases List.mem_cons.mp h with h | h
      · subst h
        exact url_done_phase rest _ (url_done_self s r)
      · exact ih _ r h

theorem url_done_visit_step (s : Store) (v : VisitRecord) {r : UrlRecord}
    (h : url_done s r) : url_done (insert_visit s v) r := by
  obtain ⟨h1, h2, h3⟩ := h
  refine ⟨?_, ?_, ?_⟩
  · unfold url_present; rw [insert_visit_urls]; exact h1
  · unfold url_seen_bound; rw [insert_visit_urls]; exact h2
  · unfold md_present; rw [insert_visit_metadata]; exact h3

theorem url_done_visit_phase (vs : List VisitRecord) :
    ∀ (s : Store) {r : UrlRecord}, url_done s r → url_done (visit_phase s vs) r := by
  induction vs with
  | nil => intro s r h; exact h
  | cons v rest ih => intro s r h; exact ih _ (url_done_visit_step s v h)

theorem visit_present_phase (vs : List VisitRecord) :
    ∀ (s : Store) {w : VisitRecord}, visit_present s w →
      visit_present (visit_phase s vs) w := by
  induction vs with
  | nil => intro s w h; exact h
  | cons v rest ih => intro s w h; exact ih _ (visit_present_mono s v h)

theorem visit_present_phase_all (vs : List VisitRecord) :
    ∀ (s : Store) (v : VisitRecord), v ∈ vs → visit_present (visit_phase s vs) v := by
  induction vs with
  | nil => intro s v h; exact absurd h (List.not_mem_nil v)
  | cons v rest ih =>
      intro s w h
      rcases List.mem_cons.mp h with h | h
      · subst h
        exact visit_present_phase rest _ (visit_present_after s w)
      · exact ih _ w h

/-- A second URL loop over records that are all already done is the
identity on the store. -/
theorem url_phase_noop (us : List UrlRecord) :
    ∀ (s : Store), (∀ r ∈ us, url_done s r) → url_phase s us = s := by
  induction us with
  | nil => intro s _; rfl
  | cons u rest ih =>
      intro s h
      obtain ⟨h1, h2, h3⟩ := h u (by simp)
      have hu : insert_url s u = s := insert_url_noop s u h1 h2
      have hm : insert_metadata s (MetadataRecord.empty u.id) = s :=
        insert_metadata_noop s _ h3 rfl
      show url_phase (insert_metadata (insert_url s u) (MetadataRecord.empty u.id)) rest = s
      rw [hu, hm]
      exact ih s (fun r hr => h r (by simp [hr]))

/-- A second visit loop over triples that are all already present is
the identity on the store. -/
theorem visit_phase_noop (vs : List VisitRecord) :
    ∀ (s : Store), (∀ v ∈ vs, visit_present s v) → visit_phase s vs = s := by
  induction vs with
  | nil => intro s _; rfl
  | cons v rest ih =>
      intro s h
      have hv : insert_visit s v = s := insert_visit_noop s v (h v (by simp))
      show visit_phase (insert_visit s v) rest = s
      rw [hv]
      exact ih s (fun w hw => h w (by simp [hw]))

theorem fold_url_step_fst (us : List UrlRecord) :
    ∀ (p : Store × InsertStats), (us.foldl url_step p).1 = url_phase p.1 us := by
  induction us with
  | nil => intro p; rfl
  | cons u rest ih =>
      intro p
      rw [List.foldl_cons, ih]
      rfl

theorem fold_visit_step_fst (vs : List VisitRecord) :
    ∀ (p : Store × InsertStats), (vs.foldl visit_step p).1 = visit_phase p.1 vs := by
  induction vs with
  | nil => intro p; rfl
  | cons v rest ih =>
      intro p
      rw [List.foldl_cons, ih]
      rfl

/-- `insert_history_data` decomposed: the URL loop then the visit
loop. -/
theorem ingest_eq (s : Store) (b : RawHistoryData) :
    ingest s b = visit_phase (url_phase s b.urls) b.visits := by
  unfold ingest insert_history_data
  rw [fold_visit_step_fst, fold_url_step_fst]

/-- C1: re-running ingestion on a batch that has already been ingested
leaves the canonical store unchanged: it inserts no new visit rows, no
new url rows, no duplicate metadata rows, and every url row (in
particular its `last_seen` value) is unchanged. -/
theorem reingest_identical_batch_noop :
    ∀ (s0 : Store) (b : RawHistoryData),
      (insert_history_data (ingest s0 b) b).1.visits = (ingest s0 b).visits ∧
      (insert_history_data (ingest s0 b) b).1.urls = (ingest s0 b).urls ∧
      (insert_history_data (ingest s0 b) b).1.metadata = (ingest s0 b).metadata := by
  intro s0 b
  have key : ingest (ingest s0 b) b = ingest s0 b := by
    rw [ingest_eq (ingest s0 b) b]
    have hud : ∀ r ∈ b.urls, url_done (ingest s0 b) r := by
      intro r hr
      rw [ingest_eq]
      exact url_done_visit_phase b.visits _ (url_done_phase_all b.urls s0 r hr)
    have hvp : ∀ v ∈ b.visits, visit_present (ingest s0 b) v := by
      intro v hv
      rw [ingest_eq]
      exact visit_present_phase_all b.visits (url_phase s0 b.urls) v hv
    rw [url_phase_noop b.urls _ hud]
    exact visit_phase_noop b.visits _ hvp
  have heq : (insert_history_data (ingest s0 b) b).1 = ingest s0 b := key
  rw [heq]
  exact ⟨rfl, rfl, rfl⟩

theorem find?_map_update (r : UrlRecord) :
    ∀ (l : List UrlRecord) (u0 : UrlRecord),
      l.find? (fun u => u.url == r.url) = some u0 →
      (l.map (fun u =>
          if u.url == r.url then { u with last_seen := max u.last_seen r.last_seen } else u)).find?
        (fun u => u.url == r.url)
        = some { u0 with last_seen := max u0.last_seen r.last_seen } := by
  intro l
  induction l with
  | nil => intro u0 h; simp at h
  | cons a l ih =>
      intro u0 h
      by_cases hc : (a.url == r.url) = true
      · rw [List.find?_cons_of_pos (p := fun u : UrlRecord => u.url == r.url) _ hc] at h
        have ha : a = u0 := by simpa using h
        subst ha
        simp only [List.map_cons, if_pos hc]
        exact List.find?_cons_of_pos (p := fun u : UrlRecord => u.url == r.url) _ hc
      · rw [List.find?_cons_of_neg (p := fun u : UrlRecord => u.url == r.url) _ hc] at h
        simp only [List.map_cons, if_neg hc]
        rw [List.find?_cons_of_neg (p := fun u : UrlRecord => u.url == r.url) _ hc]
        exact ih u0 h

theorem insert_url_mono_step (s : Store) (r u : UrlRecord) (hu : u ∈ s.urls) :
    ∃ u', u' ∈ (insert_url s r).urls ∧ u'.url = u.url ∧ u'.id = u.id ∧
      u'.first_seen = u.first_seen ∧ u.last_seen ≤ u'.last_seen := by
  unfold insert_url
  split
  · refine ⟨if u.url == r.url then { u with last_seen := max u.last_seen r.last_seen } else u,
      List.mem_map_of_mem _ hu, ?_⟩
    split
    · exact ⟨rfl, rfl, rfl, le_max_left _ _⟩
    · exact ⟨rfl, rfl, rfl, le_refl _⟩
  · exact ⟨u, by simp [hu], rfl, rfl, rfl, le_refl _⟩

theorem insert_url_fold_mono (rs : List UrlRecord) :
    ∀ (s : Store) (u : UrlRecord), u ∈ s.urls →
      ∃ u', u' ∈ (rs.foldl insert_url s).urls ∧ u'.url = u.url ∧ u'.id = u.id ∧
        u'.first_seen = u.first_seen ∧ u.last_seen ≤ u'.last_seen := by
  induction rs with
  | nil => intro s u hu; exact ⟨u, hu, rfl, rfl, rfl, le_refl _⟩
  | cons r rest ih =>
      intro s u hu
      obtain ⟨u1, hm, he1, he2, he3, hle⟩ := insert_url_mono_step s r u hu
      obtain ⟨u2, hm2, he1', he2', he3', hle'⟩ := ih (insert_url s r) u1 hm
      exact ⟨u2, by rw [List.foldl_cons]; exact hm2, he1'.trans he1, he2'.trans he2,
        he3'.trans he3, le_trans hle hle'⟩

/-- C4: when the incoming url string is already present, the merge
keeps the row count, and the row found for that string afterwards is
the existing row with only `last_seen` replaced by the maximum of the
existing and incoming values (id, url, title, domain and `first_seen`
untouched); moreover `last_seen` of any row is monotonically
non-decreasing across any sequence of merges (with the row's url,
canonical id and `first_seen` preserved). -/
theorem url_merge_semantics :
    (∀ (s : Store) (r u0 : UrlRecord),
      s.urls.find? (fun u => u.url == r.url) = some u0 →
      (insert_url s r).urls.length = s.urls.length ∧
      (insert_url s r).urls.find? (fun u => u.url == r.url)
        = some { u0 with last_seen := max u0.last_seen r.last_seen }) ∧
    (∀ (s : Store) (rs : List UrlRecord) (u : UrlRecord), u ∈ s.urls →
      ∃ u', u' ∈ (rs.foldl insert_url s).urls ∧ u'.url = u.url ∧ u'.id = u.id ∧
        u'.first_seen = u.first_seen ∧ u.last_seen ≤ u'.last_seen) := by
  constructor
  · intro s r u0 h
    constructor
    · unfold insert_url
      rw [h]
      exact List.length_map _ _
    · unfold insert_url
      rw [h]
      exact find?_map_update r s.urls u0 h
  · exact fun s rs u hu => insert_url_fold_mono rs s u hu

/-- Witness for C4 at a concrete store and merge record. -/
theorem url_merge_semantics_witness :
    ((insert_url c4_store c4_rec).urls.length = c4_store.urls.length ∧
     (insert_url c4_store c4_rec).urls.find? (fun u => u.url == c4_rec.url)
       = some { c4_row with last_seen := max c4_row.last_seen c4_rec.last_seen }) ∧
    (∃ u', u' ∈ ([c4_rec].foldl insert_url c4_store).urls ∧ u'.url = c4_row.url ∧
      u'.id = c4_row.id ∧ u'.first_seen = c4_row.first_seen ∧
      c4_row.last_seen ≤ u'.last_seen) :=
  ⟨url_merge_semantics.1 c4_store c4_rec c4_row (by decide),
   url_merge_semantics.2 c4_store [c4_rec] c4_row (by decide)⟩

theorem visit_phase_urls (vs : List VisitRecord) :
    ∀ (s : Store), (visit_phase s vs).urls = s.urls := by
  induction vs with
  | nil => intro s; rfl
  | cons v rest ih =>
      intro s
      show (visit_phase (insert_visit s v) rest).urls = s.urls
      rw [ih, insert_visit_urls]

theorem insert_url_len_of_present (s : Store) (r : UrlRecord)
    (hp : url_present s r.url) : (insert_url s r).urls.length = s.urls.length := by
  unfold insert_url
  cases h : s.urls.find? (fun u => u.url == r.url) with
  | none =>
      obtain ⟨u, hu, hs⟩ := hp
      have := List.find?_eq_none.mp h u hu
      simp [hs] at this
  | some u => exact List.length_map _ _

theorem url_phase_len (us : List UrlRecord) :
    ∀ (s : Store), (∀ r ∈ us, url_present s r.url) →
      (url_phase s us).urls.length = s.urls.length := by
  induction us with
  | nil => intro s _; rfl
  | cons u rest ih =>
      intro s h
      show (url_phase (insert_metadata (insert_url s u) (MetadataRecord.empty u.id)) rest).urls.length
        = s.urls.length
      rw [ih _ ?_]
      · show (insert_metadata (insert_url s u) (MetadataRecord.empty u.id)).urls.length
          = s.urls.length
        rw [insert_metadata_urls]
        exact insert_url_len_of_present s u (h u (by simp))
      · intro r hr
        unfold url_present
        rw [insert_metadata_urls]
        exact url_present_mono s u (h r (by simp [hr]))

theorem fold_url_step_stats (us : List UrlRecord) :
    ∀ (p : Store × InsertStats),
      (us.foldl url_step p).2.urls_inserted = p.2.urls_inserted + us.length ∧
      (us.foldl url_step p).2.metadata_inserted = p.2.metadata_inserted + us.length := by
  induction us with
  | nil => intro p; simp
  | cons u rest ih =>
      intro p
      rw [List.foldl_cons]
      obtain ⟨h1, h2⟩ := ih (url_step p u)
      constructor
      · rw [h1]; show p.2.urls_inserted + 1 + rest.length = _; simp; omega
      · rw [h2]; show p.2.metadata_inserted + 1 + rest.length = _; simp; omega

theorem fold_visit_step_stats (vs : List VisitRecord) :
    ∀ (p : Store × InsertStats),
      (vs.foldl visit_step p).2.urls_inserted = p.2.urls_inserted ∧
      (vs.foldl visit_step p).2.metadata_inserted = p.2.metadata_inserted := by
  induction vs with
  | nil => intro p; exact ⟨rfl, rfl⟩
  | cons v rest ih =>
      intro p
      rw [List.foldl_cons]
      obtain ⟨h1, h2⟩ := ih (visit_step p v)
      exact ⟨h1.trans rfl, h2.trans rfl⟩

/-- C9: `urls_inserted` and `metadata_inserted` count every URL of the
batch (in this embedding no per-record SQL error can occur, so every
URL is processed without error), even when the url string already
existed (only `last_seen` updated) or the metadata row already existed
(insert skipped); hence when the store already contains all of the
batch's url strings, re-ingestion reports `urls_inserted` equal to the
batch's URL count although the url table does not grow. -/
theorem insert_stats_overcount :
    ∀ (s : Store) (b : RawHistoryData),
      ((insert_history_data s b).2.urls_inserted = b.urls.length ∧
       (insert_history_data s b).2.metadata_inserted = b.urls.length) ∧
      ((∀ r ∈ b.urls, url_present s r.url) →
        (insert_history_data s b).1.urls.length = s.urls.length) := by
  intro s b
  constructor
  · unfold insert_history_data
    obtain ⟨hv1, hv2⟩ := fold_visit_step_stats b.visits (b.urls.foldl url_step (s, InsertStats.init))
    obtain ⟨hu1, hu2⟩ := fold_url_step_stats b.urls (s, InsertStats.init)
    constructor
    · rw [hv1, hu1]; simp [InsertStats.init]
    · rw [hv2, hu2]; simp [InsertStats.init]
  · intro h
    have : (insert_history_data s b).1 = visit_phase (url_phase s b.urls) b.visits :=
      ingest_eq s b
    rw [this, visit_phase_urls]
    exact url_phase_len b.urls s h

/-- Witness for C9: a batch whose single URL is already in the store
reports one url inserted while the url table keeps its single row. -/
theorem insert_stats_overcount_witness :
    ((insert_history_data c9_store c9_batch).2.urls_inserted = c9_batch.urls.length ∧
     (insert_history_data c9_store c9_batch).2.metadata_inserted = c9_batch.urls.length) ∧
    (insert_history_data c9_store c9_batch).1.urls.length = c9_store.urls.length :=
  ⟨(insert_stats_overcount c9_store c9_batch).1,
   (insert_stats_overcount c9_store c9_batch).2 (by
    intro r hr
    simp only [c9_batch, List.mem_singleton] at hr
    subst hr
    exact ⟨{ id := 1, url := "https://b.example/", title := none, domain := "b.example",
             first_seen := 0, last_seen := 3 }, by simp [c9_store], rfl⟩)⟩

theorem url_strings_nodup_insert_url (s : Store) (r : UrlRecord)
    (h : url_strings_nodup s) : url_strings_nodup (insert_url s r) := by
  unfold insert_url
  cases hf : s.urls.find? (fun u => u.url == r.url) with
  | some u =>
      show ((s.urls.map (fun u =>
        if u.url == r.url then { u with last_seen := max u.last_seen r.last_seen } else u)).map
          (fun u => u.url)).Nodup
      rw [List.map_map]
      have hmaps : s.urls.map ((fun u : UrlRecord => u.url) ∘ (fun u =>
          if u.url == r.url then { u with last_seen := max u.last_seen r.last_seen } else u))
          = s.urls.map (fun u => u.url) := by
        refine List.map_congr_left ?_
        intro a _
        simp only [Function.comp]
        split <;> rfl
      rw [hmaps]
      exact h
  | none =>
      show ((s.urls ++ [r]).map (fun u => u.url)).Nodup
      rw [List.map_append, List.nodup_append]
      refine ⟨h, by simp, ?_⟩
      intro a ha hb
      simp only [List.map_cons, List.map_nil, List.mem_singleton] at hb
      subst hb
      rw [List.mem_map] at ha
      obtain ⟨u, hu, hq⟩ := ha
      have := List.find?_eq_none.mp hf u hu
      simp [hq] at this

theorem visits_pairwise_insert_visit (s : Store) (v : VisitRecord)
    (h : visits_pairwise s) : visits_pairwise (insert_visit s v) := by
  unfold insert_visit
  cases hf : s.visits.find? (fun w =>
      w.url_id == v.url_id && w.visited_at == v.visited_at && w.source_file == v.source_file) with
  | some w => exact h
  | none =>
      show (s.visits ++ [v]).Pairwise _
      rw [List.pairwise_append]
      refine ⟨h, by simp, ?_⟩
      intro a ha b hb
      simp only [List.mem_singleton] at hb
      subst hb
      intro hc
      have := List.find?_eq_none.mp hf a ha
      simp [hc.1, hc.2.1, hc.2.2] at this

theorem store_inv_insert_url (s : Store) (r : UrlRecord)
    (h : store_inv s) : store_inv (insert_url s r) := by
  refine ⟨url_strings_nodup_insert_url s r h.1, ?_⟩
  unfold visits_pairwise
  rw [insert_url_visits]
  exact h.2

theorem store_inv_insert_metadata (s : Store) (m : MetadataRecord)
    (h : store_inv s) : store_inv (insert_metadata s m) := by
  constructor
  · unfold url_strings_nodup
    rw [insert_metadata_urls]
    exact h.1
  · unfold visits_pairwise
    rw [insert_metadata_visits]
    exact h.2

theorem store_inv_insert_visit (s : Store) (v : VisitRecord)
    (h : store_inv s) : store_inv (insert_visit s v) := by
  refine ⟨?_, visits_pairwise_insert_visit s v h.2⟩
  unfold url_strings_nodup
  rw [insert_visit_urls]
  exact h.1

theorem store_inv_url_phase (us : List UrlRecord) :
    ∀ (s : Store), store_inv s → store_inv (url_phase s us) := by
  induction us with
  | nil => intro s h; exact h
  | cons u rest ih =>
      intro s h
      exact ih _ (store_inv_insert_metadata _ _ (store_inv_insert_url s u h))

theorem store_inv_visit_phase (vs : List VisitRecord) :
    ∀ (s : Store), store_inv s → store_inv (visit_phase s vs) := by
  induction vs with
  | nil => intro s h; exact h
  | cons v rest ih =>
      intro s h
      exact ih _ (store_inv_insert_visit s v h)

/-- Both invariants hold at every reachable state. -/
theorem store_inv_reachable {s : Store} (h : Reachable s) : store_inv s := by
  induction h with
  | empty =>
      exact ⟨by simp [url_strings_nodup, Store.empty],
             by simp [visits_pairwise, Store.empty]⟩
  | ingest s b _ ih =>
      have : (insert_history_data s b).1 = visit_phase (url_phase s b.urls) b.visits :=
        ingest_eq s b
      rw [this]
      exact store_inv_visit_phase b.visits _ (store_inv_url_phase b.urls s ih)

/-- C2: at every reachable state of the canonical store, no two
distinct visit rows that reference url rows carrying the same url
string agree on `visited_at` and `source_file` — visit identity is
unique on (url string, visited_at, source_file), even though canonical
ids are freshly minted on every extraction run (a merge for an
already-known string keeps the existing row's id, and the dedup lookup
of `insert_visit` prevents a second row with the same triple). -/
theorem visit_identity_unique :
    ∀ (s : Store), Reachable s →
      ∀ v1 ∈ s.visits, ∀ v2 ∈ s.visits, ∀ u1 ∈ s.urls, ∀ u2 ∈ s.urls,
        v1 ≠ v2 → v1.visited_at = v2.visited_at → v1.source_file = v2.source_file →
        u1.id = v1.url_id → u2.id = v2.url_id → u1.url ≠ u2.url := by
  intro s hreach v1 hv1 v2 hv2 u1 hu1 u2 hu2 hne hat hsf hid1 hid2 hurl
  obtain ⟨hnd, hpw⟩ := store_inv_reachable hreach
  have hu : u1 = u2 := List.inj_on_of_nodup_map hnd hu1 hu2 hurl
  have hsym : Symmetric (fun v w : VisitRecord =>
      ¬(v.url_id = w.url_id ∧ v.visited_at = w.visited_at ∧ v.source_file = w.source_file)) := by
    intro a b hab hc
    exact hab ⟨hc.1.symm, hc.2.1.symm, hc.2.2.symm⟩
  have hR := (List.Pairwise.forall hsym hpw) hv1 hv2 hne
  exact hR ⟨by rw [← hid1, ← hid2, hu], hat, hsf⟩

/-- Witness for C2: a concrete reachable store holding two visits with
equal `visited_at`/`source_file` whose url rows carry distinct
strings. -/
theorem visit_identity_unique_witness : c2_u1.url ≠ c2_u2.url :=
  visit_identity_unique (ingest Store.empty c2_batch)
    (Reachable.ingest Store.empty c2_batch Reachable.empty)
    c2_v1 (by decide) c2_v2 (by decide) c2_u1 (by decide) c2_u2 (by decide)
    (by decide) rfl rfl rfl rfl

theorem length_insert_sorted {α : Type} (le : α → α → Bool) (a : α) :
    ∀ (l : List α), (insert_sorted le a l).length = l.length + 1 := by
  intro l
  induction l with
  | nil => rfl
  | cons b l ih =>
      unfold insert_sorted
      split
      · rfl
      · simpa using ih

theorem mem_insert_sorted {α : Type} (le : α → α → Bool) (a x : α) :
    ∀ (l : List α), (x ∈ insert_sorted le a l ↔ x = a ∨ x ∈ l) := by
  intro l
  induction l with
  | nil => simp [insert_sorted]
  | cons b l ih =>
      unfold insert_sorted
      split
      · simp
      · simp [ih]
        tauto

theorem length_sort_by {α : Type} (le : α → α → Bool) :
    ∀ (l : List α), (sort_by le l).length = l.length := by
  intro l
  induction l with
  | nil => rfl
  | cons a l ih =>
      show (insert_sorted le a (sort_by le l)).length = l.length + 1
      rw [length_insert_sorted, ih]

theorem mem_sort_by {α : Type} (le : α → α → Bool) (x : α) :
    ∀ (l : List α), (x ∈ sort_by le l ↔ x ∈ l) := by
  intro l
  induction l with
  | nil => simp [sort_by]
  | cons a l ih =>
      show x ∈ insert_sorted le a (sort_by le l) ↔ _
      rw [mem_insert_sorted]
      simp [ih]

theorem pairwise_insert_sorted {α : Type} (le : α → α → Bool)
    (htrans : ∀ a b c, le a b = true → le b c = true → le a c = true)
    (htotal : ∀ a b, le a b = true ∨ le b a = true) (a : α) :
    ∀ (l : List α), l.Pairwise (fun x y => le x y = true) →
      (insert_sorted le a l).Pairwise (fun x y => le x y = true) := by
  intro l
  induction l with
  | nil => intro _; exact List.pairwise_singleton _ _
  | cons b l ih =>
      intro h
      rw [List.pairwise_cons] at h
      obtain ⟨hb, hl⟩ := h
      unfold insert_sorted
      split
      · next hab =>
          rw [List.pairwise_cons]
          constructor
          · intro y hy
            rcases List.mem_cons.mp hy with hy | hy
            · subst hy; exact hab
            · exact htrans a b y hab (hb y hy)
          · rw [List.pairwise_cons]
            exact ⟨hb, hl⟩
      · next hab =>
          have hba : le b a = true := by
            rcases htotal a b with h | h
            · exact absurd h hab
            · exact h
          rw [List.pairwise_cons]
          constructor
          · intro y hy
            rcases (mem_insert_sorted le a y l).mp hy with hy | hy
            · subst hy; exact hba
            · exact hb y hy
          · exact ih hl

theorem pairwise_sort_by {α : Type} (le : α → α → Bool)
    (htrans : ∀ a b c, le a b = true → le b c = true → le a c = true)
    (htotal : ∀ a b, le a b = true ∨ le b a = true) :
    ∀ (l : List α), (sort_by le l).Pairwise (fun x y => le x y = true) := by
  intro l
  induction l with
  | nil => simp [sort_by]
  | cons a l ih =>
      exact pairwise_insert_sorted le htrans htotal a (sort_by le l) ih

/-- Under distinct url-row ids, `COUNT(DISTINCT u.id)` equals the
number of result rows of the main query before LIMIT/OFFSET. -/
theorem count_matched (s : Store) (p : SearchParams)
    (hnd : (s.urls.map (fun u => u.id)).Nodup) :
    count_distinct_matches s p = (matched_rows s p).length := by
  unfold count_distinct_matches matched_rows matched_urls
  rw [length_sort_by, List.length_map]
  have hnodup : ((s.urls.filter (fun u => !(search_group s p u).isEmpty)).map
      (fun u => u.id)).Nodup :=
    List.Nodup.sublist (List.Sublist.map _ (List.filter_sublist s.urls)) hnd
  rw [List.dedup_eq_self.mpr hnodup, List.length_map]

/-- C6: whenever a search succeeds, `total_count` is at least the
number of returned rows; when a limit or offset was supplied it equals
the result of the separate count query (the identical predicate set
with no limit/offset), and when neither was supplied it equals the
number of returned rows. The hypothesis that url-row ids are distinct
is the `id` primary key of the canonical `url` table. -/
theorem search_total_count :
    ∀ (s : Store) (p : SearchParams) (r : SearchResults),
      (s.urls.map (fun u => u.id)).Nodup →
      search_history s p = .ok r →
      r.urls.length ≤ r.total_count ∧
      ((p.limit.isSome ∨ p.offset.isSome) → r.total_count = count_distinct_matches s p) ∧
      (p.limit = none → p.offset = none → r.total_count = r.urls.length) := by
  intro s p r hnd h
  have hkey : count_distinct_matches s p = (matched_rows s p).length := count_matched s p hnd
  obtain ⟨q, d, sd, ed, lim, off⟩ := p
  cases lim with
  | none =>
      cases off with
      | none =>
          simp only [search_history] at h
          rw [Except.ok.injEq] at h
          subst h
          refine ⟨le_refl _, ?_, fun _ _ => rfl⟩
          intro h'
          simp at h'
      | some m =>
          simp only [search_history] at h
          simp at h
  | some n =>
      cases off with
      | none =>
          simp only [search_history] at h
          rw [Except.ok.injEq] at h
          subst h
          refine ⟨?_, fun _ => rfl, ?_⟩
          · simp only [hkey]
            rw [List.length_take]
            omega
          · intro h1
            simp at h1
      | some m =>
          simp only [search_history] at h
          rw [Except.ok.injEq] at h
          subst h
          refine ⟨?_, fun _ => rfl, ?_⟩
          · simp only [hkey]
            rw [List.length_take, List.length_drop]
            omega
          · intro h1
            simp at h1

/-- Witness for C6 at a concrete store and a search with a limit. -/
theorem search_total_count_witness :
    c6_result.urls.length ≤ c6_result.total_count ∧
    ((c6_params.limit.isSome ∨ c6_params.offset.isSome) →
      c6_result.total_count = count_distinct_matches c6_store c6_params) ∧
    (c6_params.limit = none → c6_params.offset = none →
      c6_result.total_count = c6_result.urls.length) :=
  search_total_count c6_store c6_params c6_result (by decide) (by decide)

theorem left_join_rows_ne_nil (s : Store) (u : UrlRecord) : left_join_rows s u ≠ [] := by
  unfold left_join_rows
  split
  · simp
  · next h =>
      intro hc
      rw [List.map_eq_nil_iff] at hc
      rw [hc] at h
      simp at h

theorem mem_left_join (s : Store) (u : UrlRecord) {ov : Option VisitRecord}
    (h : ov ∈ left_join_rows s u) :
    ov = none ∨ ∃ v, ov = some v ∧ v ∈ s.visits ∧ v.url_id = u.id := by
  unfold left_join_rows at h
  split at h
  · simp at h
    exact Or.inl h
  · right
    rw [List.mem_map] at h
    obtain ⟨w, hw, hww⟩ := h
    rw [List.mem_filter] at hw
    exact ⟨w, hww.symm, hw.1, by simpa using hw.2⟩

theorem search_group_mem {s : Store} {p : SearchParams} {u : UrlRecord}
    {row : Option VisitRecord} (h : row ∈ search_group s p u) :
    row ∈ left_join_rows s u ∧ visit_conds p row = true := by
  unfold search_group at h
  split at h
  · exact List.mem_filter.mp h
  · exact absurd h (List.not_mem_nil row)

theorem matched_rows_mem {s : Store} {p : SearchParams} {it : SearchResult}
    (h : it ∈ matched_rows s p) :
    ∃ u ∈ s.urls, it = mk_search_row s u (search_group s p u) ∧
      search_group s p u ≠ [] := by
  unfold matched_rows at h
  rw [mem_sort_by, List.mem_map] at h
  obtain ⟨u, hu, huit⟩ := h
  unfold matched_urls at hu
  rw [List.mem_filter] at hu
  refine ⟨u, hu.1, huit.symm, fun hnil => ?_⟩
  have h2 := hu.2
  rw [hnil] at h2
  simp at h2

/-- Every returned row of a successful search is a row of the main
query (LIMIT and OFFSET only select among them). -/
theorem search_sub (s : Store) (p : SearchParams) (r : SearchResults)
    (h : search_history s p = .ok r) : ∀ it ∈ r.urls, it ∈ matched_rows s p := by
  obtain ⟨q, d, sd, ed, lim, off⟩ := p
  cases lim with
  | none =>
      cases off with
      | none =>
          simp only [search_history] at h
          rw [Except.ok.injEq] at h
          subst h
          exact fun it hit => hit
      | some m =>
          simp only [search_history] at h
          simp at h
  | some n =>
      cases off with
      | none =>
          simp only [search_history] at h
          rw [Except.ok.injEq] at h
          subst h
          exact fun it hit => List.mem_of_mem_take hit
      | some m =>
          simp only [search_history] at h
          rw [Except.ok.injEq] at h
          subst h
          exact fun it hit => List.mem_of_mem_drop (List.mem_of_mem_take hit)

/-- C10: with no query, domain or date predicate (and no limit/offset),
the result set contains a row for every url row of the store, and a url
with no visit rows appears with `visit_count` 0 and no `last_visit`
(the join is a LEFT JOIN); but under any start or end date predicate,
every returned row's url has at least one visit row (the date
comparison rejects the null-extended row). -/
theorem search_left_join_semantics :
    (∀ (s : Store) (r : SearchResults),
      search_history s ⟨none, none, none, none, none, none⟩ = .ok r →
      (∀ u ∈ s.urls, ∃ it ∈ r.urls, it.url = u) ∧
      (∀ it ∈ r.urls, (∀ v ∈ s.visits, v.url_id ≠ it.url.id) →
        it.visit_count = 0 ∧ it.last_visit = none)) ∧
    (∀ (s : Store) (p : SearchParams) (r : SearchResults),
      p.start_date.isSome ∨ p.end_date.isSome →
      search_history s p = .ok r →
      ∀ it ∈ r.urls, ∃ v ∈ s.visits, v.url_id = it.url.id) := by
  constructor
  · intro s r h
    simp only [search_history] at h
    rw [Except.ok.injEq] at h
    subst h
    constructor
    · intro u hu
      refine ⟨mk_search_row s u
        (search_group s ⟨none, none, none, none, none, none⟩ u), ?_, rfl⟩
      show _ ∈ matched_rows s _
      unfold matched_rows
      rw [mem_sort_by]
      refine List.mem_map_of_mem _ ?_
      unfold matched_urls
      rw [List.mem_filter]
      refine ⟨hu, ?_⟩
      have hne : search_group s ⟨none, none, none, none, none, none⟩ u ≠ [] := by
        unfold search_group
        rw [if_pos (show url_conds s ⟨none, none, none, none, none, none⟩ u = true from rfl)]
        have hfe : List.filter
            (visit_conds ⟨none, none, none, none, none, none⟩) (left_join_rows s u)
            = left_join_rows s u :=
          List.filter_eq_self.mpr (fun a _ => rfl)
        rw [hfe]
        exact left_join_rows_ne_nil s u
      simpa using hne
    · intro it hit hnov
      obtain ⟨u, _, heq, _⟩ := matched_rows_mem hit
      subst heq
      have hfil : s.visits.filter (fun v => v.url_id == u.id) = [] := by
        rw [List.filter_eq_nil_iff]
        intro v hv
        simp only [beq_iff_eq]
        exact hnov v hv
      have hlj : left_join_rows s u = [none] := by
        unfold left_join_rows
        rw [hfil]
        rfl
      have hg : search_group s (⟨none, none, none, none, none, none⟩ : SearchParams) u
          = [none] := by
        unfold search_group
        rw [if_pos (show url_conds s ⟨none, none, none, none, none, none⟩ u = true from rfl)]
        rw [hlj]
        rfl
      rw [hg]
      exact ⟨rfl, rfl⟩
  · intro s p r hse h it hit
    obtain ⟨u, _, heq, hne⟩ := matched_rows_mem (search_sub s p r h it hit)
    subst heq
    obtain ⟨row, hrow⟩ := List.exists_mem_of_ne_nil _ hne
    obtain ⟨hrl, hrc⟩ := search_group_mem hrow
    cases row with
    | none =>
        exfalso
        unfold visit_conds at hrc
        rcases hse with hs | hs
        · rcases hq : p.start_date with _ | t
          · rw [hq] at hs; simp at hs
          · rw [hq] at hrc; simp at hrc
        · rcases hq : p.end_date with _ | t
          · rw [hq] at hs; simp at hs
          · rw [hq] at hrc; simp at hrc
    | some v =>
        rcases mem_left_join s u hrl with hno | ⟨w, hw, hwm, hwid⟩
        · exact absurd hno (by simp)
        · obtain rfl : v = w := Option.some.inj hw
          exact ⟨v, hwm, hwid⟩

/-- Witness for C10: both halves at concrete stores — a zero-visit url
is returned by the predicate-free search, and with a start date every
returned url has a visit. -/
theorem search_left_join_semantics_witness :
    (∃ it ∈ c10_r1.urls, it.url = c10_u) ∧
    ((⟨c10_u, none, 0, none⟩ : SearchResult).visit_count = 0 ∧
      (⟨c10_u, none, 0, none⟩ : SearchResult).last_visit = none) ∧
    (∃ v ∈ c10_store2.visits,
      v.url_id = (⟨c10_u, none, 1, some 100⟩ : SearchResult).url.id) :=
  ⟨(search_left_join_semantics.1 c10_store c10_r1 (by decide)).1 c10_u (by decide),
   (search_left_join_semantics.1 c10_store c10_r1 (by decide)).2
     ⟨c10_u, none, 0, none⟩ (by decide) (by decide),
   search_left_join_semantics.2 c10_store2 c10_p2 c10_r2 (Or.inl rfl) (by decide)
     ⟨c10_u, none, 1, some 100⟩ (by decide)⟩

theorem sample_query_len (rows : List (VisitRecord × UrlRecord)) :
    (sample_query rows).length ≤ 5 := by
  unfold sample_query
  rw [List.length_take]
  exact min_le_left _ _

theorem sample_query_sorted (rows : List (VisitRecord × UrlRecord)) :
    (sample_query rows).Pairwise (fun a b => b.visit_count ≤ a.visit_count) := by
  unfold sample_query
  refine List.Pairwise.sublist (List.take_sublist _ _) ?_
  have hp := pairwise_sort_by (fun a b : UrlWithVisits => decide (b.visit_count ≤ a.visit_count))
    (fun a b c hab hbc =>
      decide_eq_true (le_trans (of_decide_eq_true hbc) (of_decide_eq_true hab)))
    (fun a b => by
      rcases le_total b.visit_count a.visit_count with h | h
      · exact Or.inl (decide_eq_true h)
      · exact Or.inr (decide_eq_true h))
    (((rows.map (fun pr => pr.2.id)).dedup).filterMap (sample_entry rows))
  exact hp.imp (fun h => of_decide_eq_true h)

theorem sample_query_mem (rows : List (VisitRecord × UrlRecord)) {uw : UrlWithVisits}
    (h : uw ∈ sample_query rows) :
    ∃ pr ∈ rows, pr.2 = uw.url ∧
      uw.visit_count = (rows.filter (fun q => q.2.id == uw.url.id)).length := by
  unfold sample_query at h
  have h1 := List.mem_of_mem_take h
  rw [mem_sort_by, List.mem_filterMap] at h1
  obtain ⟨i, _, hfi⟩ := h1
  unfold sample_entry at hfi
  cases hf : rows.find? (fun pr => pr.2.id == i) with
  | none => rw [hf] at hfi; exact absurd hfi (by simp)
  | some pr0 =>
      rw [hf] at hfi
      rw [Option.some.injEq] at hfi
      have hid : pr0.2.id = i := by simpa using List.find?_some hf
      refine ⟨pr0, List.mem_of_find?_eq_some hf, ?_, ?_⟩
      · rw [← hfi]
      · rw [← hfi]
        show (rows.filter (fun q => q.2.id == i)).length
          = (rows.filter (fun q => q.2.id == pr0.2.id)).length
        rw [hid]

/-- C7 counterexample: with a start bound at 12:00 of day 20000, the
single daily bucket (produced by the one in-range visit) carries a
sample list containing url id 2, although no visit of url 2 satisfies
the start constraint — the daily sample query does not re-apply the
start/end filters, contradicting the claim that every bucket's sample
query applies the same start/end/domain constraints. -/
theorem timeline_daily_sample_ignores_range :
    (match get_daily_timeline_data c7_store c7_params with
     | [TimelineItem.Daily _ _ (some us)] => us.any (fun uw => uw.url.id == 2)
     | _ => false) = true
    ∧ c7_store.visits.all
        (fun v => !(v.url_id == 2 && decide (1728043200 ≤ v.visited_at))) = true := by
  constructor
  · decide
  · decide

/-- C7 as amended: for every bucket of every grouping mode the sample
list has at most 5 entries, is ranked by the samples' own visit counts
descending, and each sample is backed by a joined row satisfying the
sample query's constraints — the bucket's hour together with the full
start/end/domain filters for hour buckets, the bucket's domain together
with the start/end filters for domain buckets, but only the bucket's
calendar day together with the domain filter for day buckets (the
source's daily branch omits the start/end conditions); each sample's
`visit_count` is its row count under those same constraints. -/
theorem timeline_samples_amended :
    ∀ (s : Store) (p : TimelineParams),
      (∀ item ∈ get_timeline_data s p TimelineGrouping.Hour, ∀ h c ts us,
        item = TimelineItem.Hourly h c ts (some us) →
        us.length ≤ 5 ∧
        us.Pairwise (fun a b => b.visit_count ≤ a.visit_count) ∧
        (∀ uw ∈ us, ∃ pr ∈ timeline_join s,
          pr.2 = uw.url ∧ hour_of pr.1.visited_at = h ∧ timeline_filters p pr = true ∧
          uw.visit_count = (((timeline_join s).filter (fun q =>
            hour_of q.1.visited_at == h && timeline_filters p q)).filter
              (fun q => q.2.id == uw.url.id)).length)) ∧
      (∀ item ∈ get_timeline_data s p TimelineGrouping.Day, ∀ d c us,
        item = TimelineItem.Daily d c (some us) →
        us.length ≤ 5 ∧
        us.Pairwise (fun a b => b.visit_count ≤ a.visit_count) ∧
        (∀ uw ∈ us, ∃ pr ∈ timeline_join s,
          pr.2 = uw.url ∧ day_of pr.1.visited_at = day_of d ∧ domain_cond p pr.2 = true ∧
          uw.visit_count = (((timeline_join s).filter (fun q =>
            day_of q.1.visited_at == day_of d && domain_cond p q.2)).filter
              (fun q => q.2.id == uw.url.id)).length)) ∧
      (∀ item ∈ get_timeline_data s p TimelineGrouping.Domain, ∀ dm c us,
        item = TimelineItem.Domain dm c (some us) →
        us.length ≤ 5 ∧
        us.Pairwise (fun a b => b.visit_count ≤ a.visit_count) ∧
        (∀ uw ∈ us, ∃ pr ∈ timeline_join s,
          pr.2 = uw.url ∧ pr.2.domain = dm ∧ start_end_conds p pr.1 = true ∧
          uw.visit_count = (((timeline_join s).filter (fun q =>
            q.2.domain == dm && start_end_conds p q.1)).filter
              (fun q => q.2.id == uw.url.id)).length)) := by
  intro s p
  refine ⟨?_, ?_, ?_⟩
  · intro item hitem h c ts us heq
    rw [show get_timeline_data s p TimelineGrouping.Hour = get_hourly_timeline_data s p
      from rfl] at hitem
    unfold get_hourly_timeline_data at hitem
    rw [List.mem_map] at hitem
    obtain ⟨bk, _, hbk⟩ := hitem
    rw [← hbk] at heq
    rw [TimelineItem.Hourly.injEq] at heq
    obtain ⟨hh, -, -, hus⟩ := heq
    have hus' : us = sample_hourly s p bk.1 := (Option.some.inj hus).symm
    subst hus'
    subst hh
    refine ⟨sample_query_len _, sample_query_sorted _, ?_⟩
    intro uw huw
    obtain ⟨pr, hpr, hpu, hcnt⟩ := sample_query_mem _ huw
    rw [List.mem_filter] at hpr
    obtain ⟨hj, hcond⟩ := hpr
    rw [Bool.and_eq_true] at hcond
    exact ⟨pr, hj, hpu, by simpa using hcond.1, hcond.2, hcnt⟩
  · intro item hitem d c us heq
    rw [show get_timeline_data s p TimelineGrouping.Day = get_daily_timeline_data s p
      from rfl] at hitem
    unfold get_daily_timeline_data at hitem
    rw [List.mem_map] at hitem
    obtain ⟨bk, _, hbk⟩ := hitem
    rw [← hbk] at heq
    rw [TimelineItem.Daily.injEq] at heq
    obtain ⟨hd, -, hus⟩ := heq
    have hus' : us = sample_daily s p (day_of bk.2.2) := (Option.some.inj hus).symm
    subst hus'
    subst hd
    refine ⟨sample_query_len _, sample_query_sorted _, ?_⟩
    intro uw huw
    obtain ⟨pr, hpr, hpu, hcnt⟩ := sample_query_mem _ huw
    rw [List.mem_filter] at hpr
    obtain ⟨hj, hcond⟩ := hpr
    rw [Bool.and_eq_true] at hcond
    exact ⟨pr, hj, hpu, by simpa using hcond.1, hcond.2, hcnt⟩
  · intro item hitem dm c us heq
    rw [show get_timeline_data s p TimelineGrouping.Domain = get_domain_timeline_data s p
      from rfl] at hitem
    unfold get_domain_timeline_data at hitem
    rw [List.mem_map] at hitem
    obtain ⟨bk, _, hbk⟩ := hitem
    rw [← hbk] at heq
    rw [TimelineItem.Domain.injEq] at heq
    obtain ⟨hdm, -, hus⟩ := heq
    have hus' : us = sample_domain s p bk.1 := (Option.some.inj hus).symm
    subst hus'
    subst hdm
    refine ⟨sample_query_len _, sample_query_sorted _, ?_⟩
    intro uw huw
    obtain ⟨pr, hpr, hpu, hcnt⟩ := sample_query_mem _ huw
    rw [List.mem_filter] at hpr
    obtain ⟨hj, hcond⟩ := hpr
    rw [Bool.and_eq_true] at hcond
    exact ⟨pr, hj, hpu, by simpa using hcond.1, hcond.2, hcnt⟩

/-- Witness for the amended C7 at the concrete daily bucket of
`c7_store`/`c7_params`. -/
theorem timeline_samples_amended_witness :
    c7_us.length ≤ 5 ∧
    c7_us.Pairwise (fun a b => b.visit_count ≤ a.visit_count) ∧
    (∀ uw ∈ c7_us, ∃ pr ∈ timeline_join c7_store,
      pr.2 = uw.url ∧ day_of pr.1.visited_at = day_of 1728046800 ∧
      domain_cond c7_params pr.2 = true ∧
      uw.visit_count = (((timeline_join c7_store).filter (fun q =>
        day_of q.1.visited_at == day_of 1728046800 && domain_cond c7_params q.2)).filter
          (fun q => q.2.id == uw.url.id)).length) :=
  (timeline_samples_amended c7_store c7_params).2.1
    (TimelineItem.Daily 1728046800 1 (some c7_us)) (by decide)
    1728046800 1 c7_us rfl

theorem url_fold_step_err {acc : RawHistoryData × List (Int × Nat)} {row : ForeignItemRow}
    (h : url_row_ok row = false) :
    url_fold_step acc row
      = ({ acc.1 with warnings := acc.1.warnings ++ ["Failed to process URL"] }, acc.2) := by
  unfold url_row_ok at h
  unfold url_fold_step process_url_row
  cases h1 : mac_to_utc row.visit_count with
  | error e => rfl
  | ok fs =>
      cases h2 : mac_to_utc row.visit_time with
      | error e => rfl
      | ok ls =>
          rw [h1, h2] at h
          simp [Except.isOk, Except.toBool] at h

theorem url_fold_step_ok {acc : RawHistoryData × List (Int × Nat)} {row : ForeignItemRow}
    (h : url_row_ok row = true) :
    ∃ u : UrlRecord,
      url_fold_step acc row = ({ acc.1 with urls := acc.1.urls ++ [u] }, acc.2 ++ [(row.id, u.id)]) := by
  unfold url_row_ok at h
  rw [Bool.and_eq_true] at h
  obtain ⟨h1, h2⟩ := h
  cases hm1 : mac_to_utc row.visit_count with
  | error e => rw [hm1] at h1; simp [Except.isOk, Except.toBool] at h1
  | ok fs =>
      cases hm2 : mac_to_utc row.visit_time with
      | error e => rw [hm2] at h2; simp [Except.isOk, Except.toBool] at h2
      | ok ls =>
          refine ⟨{ id := acc.1.urls.length, url := row.url, title := row.title,
                    domain := row.domain, first_seen := fs, last_seen := ls }, ?_⟩
          unfold url_fold_step process_url_row
          rw [hm1, hm2]

theorem extract_urls_fold (rows : List ForeignItemRow) :
    ∀ (b : RawHistoryData) (m : List (Int × Nat)),
      (rows.foldl url_fold_step (b, m)).1.urls.length
        = b.urls.length + rows.countP url_row_ok ∧
      (rows.foldl url_fold_step (b, m)).1.warnings.length
        = b.warnings.length + rows.countP (fun r => !url_row_ok r) ∧
      (rows.foldl url_fold_step (b, m)).1.visits = b.visits ∧
      (rows.foldl url_fold_step (b, m)).1.source_file = b.source_file ∧
      (rows.foldl url_fold_step (b, m)).1.device_name = b.device_name ∧
      (rows.foldl url_fold_step (b, m)).2.map (fun e => e.1)
        = m.map (fun e => e.1) ++ (rows.filter url_row_ok).map (fun r => r.id) := by
  induction rows with
  | nil => intro b m; simp
  | cons row rest ih =>
      intro b m
      rw [List.foldl_cons]
      cases hok : url_row_ok row with
      | true =>
          obtain ⟨u, hstep⟩ := @url_fold_step_ok (b, m) row hok
          rw [hstep]
          obtain ⟨i1, i2, i3, i4, i5, i6⟩ :=
            ih { b with urls := b.urls ++ [u] } (m ++ [(row.id, u.id)])
          refine ⟨?_, ?_, i3, i4, i5, ?_⟩
          · rw [i1]
            simp [List.countP_cons, hok]
            omega
          · rw [i2]
            simp [List.countP_cons, hok]
          · rw [i6]
            simp [List.filter_cons, hok]
      | false =>
          rw [@url_fold_step_err (b, m) row hok]
          obtain ⟨i1, i2, i3, i4, i5, i6⟩ :=
            ih { b with warnings := b.warnings ++ ["Failed to process URL"] } m
          refine ⟨?_, ?_, i3, i4, i5, ?_⟩
          · rw [i1]
            simp [List.countP_cons, hok]
          · rw [i2]
            simp [List.countP_cons, hok]
            omega
          · rw [i6]
            simp [List.filter_cons, hok]

theorem visit_fold_step_err {map : List (Int × Nat)} {acc : RawHistoryData}
    {row : ForeignVisitRow} (h : visit_resolves map row = false) :
    visit_fold_step map acc row
      = { acc with warnings := acc.warnings ++ ["Failed to process visit"] } := by
  unfold visit_resolves at h
  unfold visit_fold_step process_visit_row
  cases hm : mac_to_utc row.visit_time with
  | error e => rfl
  | ok t =>
      rw [hm] at h
      simp only [Except.isOk, Except.toBool, Bool.true_and] at h
      cases hf : map.find? (fun e => e.1 == row.history_item) with
      | none => rfl
      | some e =>
          have hmem := List.mem_of_find?_eq_some hf
          have hpe := List.find?_some hf
          have : map.any (fun e => e.1 == row.history_item) = true :=
            List.any_eq_true.mpr ⟨e, hmem, hpe⟩
          rw [this] at h
          exact absurd h (by simp)

theorem visit_fold_step_ok {map : List (Int × Nat)} {acc : RawHistoryData}
    {row : ForeignVisitRow} (h : visit_resolves map row = true) :
    ∃ v : VisitRecord, visit_fold_step map acc row = { acc with visits := acc.visits ++ [v] } := by
  unfold visit_resolves at h
  rw [Bool.and_eq_true] at h
  obtain ⟨h1, h2⟩ := h
  cases hm : mac_to_utc row.visit_time with
  | error e => rw [hm] at h1; simp [Except.isOk, Except.toBool] at h1
  | ok t =>
      cases hf : map.find? (fun e => e.1 == row.history_item) with
      | none =>
          rw [List.any_eq_true] at h2
          obtain ⟨e, he, hpe⟩ := h2
          have := List.find?_eq_none.mp hf e he
          exact absurd hpe this
      | some e =>
          refine ⟨{ id := acc.visits.length, url_id := e.2, visited_at := t, visit_count := 1,
                    source_file := acc.source_file, device_name := acc.device_name,
                    duration_sec := none }, ?_⟩
          unfold visit_fold_step process_visit_row
          rw [hm, hf]

theorem extract_visits_fold (map : List (Int × Nat)) (rows : List ForeignVisitRow) :
    ∀ (b : RawHistoryData),
      (rows.foldl (visit_fold_step map) b).visits.length
        = b.visits.length + rows.countP (visit_resolves map) ∧
      (rows.foldl (visit_fold_step map) b).warnings.length
        = b.warnings.length + rows.countP (fun r => !(visit_resolves map r)) ∧
      (rows.foldl (visit_fold_step map) b).urls = b.urls := by
  induction rows with
  | nil => intro b; simp
  | cons row rest ih =>
      intro b
      rw [List.foldl_cons]
      cases hok : visit_resolves map row with
      | true =>
          obtain ⟨v, hstep⟩ := @visit_fold_step_ok map b row hok
          rw [hstep]
          obtain ⟨i1, i2, i3⟩ := ih { b with visits := b.visits ++ [v] }
          refine ⟨?_, ?_, i3⟩
          · rw [i1]
            simp [List.countP_cons, hok]
            omega
          · rw [i2]
            simp [List.countP_cons, hok]
      | false =>
          rw [@visit_fold_step_err map b row hok]
          obtain ⟨i1, i2, i3⟩ := ih { b with warnings := b.warnings ++ ["Failed to process visit"] }
          refine ⟨?_, ?_, i3⟩
          · rw [i1]
            simp [List.countP_cons, hok]
          · rw [i2]
            simp [List.countP_cons, hok]
            omega

theorem countP_insert_sorted {α : Type} (le : α → α → Bool) (p : α → Bool) (a : α) :
    ∀ (l : List α), (insert_sorted le a l).countP p = (a :: l).countP p := by
  intro l
  induction l with
  | nil => rfl
  | cons b t ih =>
      unfold insert_sorted
      split
      · rfl
      · rw [List.countP_cons, ih]
        rw [List.countP_cons, List.countP_cons, List.countP_cons]
        omega

theorem countP_sort_by {α : Type} (le : α → α → Bool) (p : α → Bool) :
    ∀ (l : List α), (sort_by le l).countP p = l.countP p := by
  intro l
  induction l with
  | nil => rfl
  | cons a t ih =>
      show (insert_sorted le a (sort_by le t)).countP p = _
      rw [countP_insert_sorted, List.countP_cons, ih, List.countP_cons]

/-- When the foreign-id map's keys are exactly the ids of the
successfully processed URL rows, a visit resolves exactly when some
successfully processed URL row carries its foreign id. -/
theorem resolves_iff (map : List (Int × Nat)) (ti : ForeignTable ForeignItemRow)
    (hkeys : map.map (fun e => e.1) = (ti.rows.filter url_row_ok).map (fun r => r.id))
    (row : ForeignVisitRow) : visit_resolves map row = visit_row_ok ti row := by
  unfold visit_resolves visit_row_ok
  have hsec : map.any (fun e => e.1 == row.history_item)
      = ti.rows.any (fun r => url_row_ok r && r.id == row.history_item) := by
    rw [Bool.eq_iff_iff, List.any_eq_true, List.any_eq_true]
    constructor
    · rintro ⟨e, he, heq⟩
      have hk : e.1 ∈ map.map (fun e => e.1) := List.mem_map_of_mem _ he
      rw [hkeys, List.mem_map] at hk
      obtain ⟨r, hr, hrid⟩ := hk
      rw [List.mem_filter] at hr
      refine ⟨r, hr.1, ?_⟩
      rw [Bool.and_eq_true]
      refine ⟨hr.2, ?_⟩
      rw [hrid]
      exact heq
    · rintro ⟨r, hr, hcond⟩
      rw [Bool.and_eq_true] at hcond
      have hk : r.id ∈ (ti.rows.filter url_row_ok).map (fun r => r.id) :=
        List.mem_map_of_mem _ (List.mem_filter.mpr ⟨hr, hcond.1⟩)
      rw [← hkeys, List.mem_map] at hk
      obtain ⟨e, he, heid⟩ := hk
      refine ⟨e, he, ?_⟩
      rw [heid]
      exact hcond.2
  rw [hsec]

/-- `extract_history` on a file with both tables present is the URL
phase followed by the visit phase. -/
theorem extract_history_some_ok (db : ForeignDb) (sf : String) (dn : Option String)
    (ti : ForeignTable ForeignItemRow) (tv : ForeignTable ForeignVisitRow)
    (bm : RawHistoryData × List (Int × Nat))
    (h1 : db.history_items = some ti) (h2 : db.history_visits = some tv)
    (hx : extract_urls ti ⟨sf, dn, [], [], []⟩ = .ok bm) :
    extract_history db sf dn = extract_visits tv bm.1 bm.2 := by
  unfold extract_history
  simp only [h1, h2, hx]
  cases hy : extract_visits tv bm.1 bm.2 with
  | error e => rfl
  | ok b => rfl

/-- C5 counterexample: a file whose two required tables exist (schema
validation passes) but whose `history_items` table lacks the selected
`domain` column; statement preparation then fails and the whole
extraction aborts batch-level — a post-validation failure that is not
row-scoped, refuting "it is the only hard gate ... every subsequent
failure during extraction is row-scoped and soft". -/
theorem schema_check_not_only_gate :
    verify_safari_schema c5_db = .ok () ∧
    extract_history c5_db "h.db" none = .error (.Database "history_items") := by
  constructor
  · decide
  · decide

/-- C5 as amended: extraction fails with a schema error naming the
missing table whenever either required foreign table is absent, and
this check precedes any row processing (the result does not depend on
any row contents); however schema validation is not the only hard
gate: a missing selected column also aborts the batch at statement
preparation. For every file whose tables and selected columns are all
present, extraction always returns a batch: every row failure is soft —
each failing URL row (bad timestamp) and each failing visit row (bad
timestamp or unresolved URL reference) adds one warning while every
other row is extracted. -/
theorem extraction_error_structure :
    (∀ (db : ForeignDb) (sf : String) (dn : Option String),
      db.history_items = none →
      verify_safari_schema db = .error (.UnsupportedSchema "history_items") ∧
      extract_history db sf dn = .error (.UnsupportedSchema "history_items")) ∧
    (∀ (db : ForeignDb) (sf : String) (dn : Option String)
        (ti : ForeignTable ForeignItemRow),
      db.history_items = some ti → db.history_visits = none →
      verify_safari_schema db = .error (.UnsupportedSchema "history_visits") ∧
      extract_history db sf dn = .error (.UnsupportedSchema "history_visits")) ∧
    (∀ (db : ForeignDb) (sf : String) (dn : Option String)
        (ti : ForeignTable ForeignItemRow) (tv : ForeignTable ForeignVisitRow),
      db.history_items = some ti → db.history_visits = some tv →
      url_columns.all (fun c => ti.columns.contains c) = true →
      visit_columns.all (fun c => tv.columns.contains c) = true →
      ∃ b, extract_history db sf dn = .ok b ∧
        b.urls.length = ti.rows.countP url_row_ok ∧
        b.visits.length = tv.rows.countP (visit_row_ok ti) ∧
        b.warnings.length = ti.rows.countP (fun r => !url_row_ok r)
          + tv.rows.countP (fun r => !(visit_row_ok ti r))) := by
  refine ⟨?_, ?_, ?_⟩
  · intro db sf dn h
    constructor
    · unfold verify_safari_schema
      rw [h]
      rfl
    · unfold extract_history
      rw [h]
  · intro db sf dn ti h1 h2
    constructor
    · unfold verify_safari_schema
      rw [h1, h2]
      rfl
    · unfold extract_history
      rw [h1, h2]
  · intro db sf dn ti tv h1 h2 hc1 hc2
    have hu : extract_urls ti ⟨sf, dn, [], [], []⟩
        = .ok (ti.rows.foldl url_fold_step (⟨sf, dn, [], [], []⟩, [])) := by
      unfold extract_urls
      rw [if_pos hc1]
    obtain ⟨a1, a2, a3, a4, a5, a6⟩ :=
      extract_urls_fold ti.rows ⟨sf, dn, [], [], []⟩ []
    have hkeys : (ti.rows.foldl url_fold_step (⟨sf, dn, [], [], []⟩, [])).2.map (fun e => e.1)
        = (ti.rows.filter url_row_ok).map (fun r => r.id) := by
      rw [a6]
      rfl
    have hres := resolves_iff _ ti hkeys
    have hresf : visit_resolves (ti.rows.foldl url_fold_step (⟨sf, dn, [], [], []⟩, [])).2
        = visit_row_ok ti := funext hres
    have hv : extract_visits tv (ti.rows.foldl url_fold_step (⟨sf, dn, [], [], []⟩, [])).1
        (ti.rows.foldl url_fold_step (⟨sf, dn, [], [], []⟩, [])).2
        = .ok ((sort_by (fun a b => decide (b.visit_time ≤ a.visit_time)) tv.rows).foldl
            (visit_fold_step (ti.rows.foldl url_fold_step (⟨sf, dn, [], [], []⟩, [])).2)
            (ti.rows.foldl url_fold_step (⟨sf, dn, [], [], []⟩, [])).1) := by
      unfold extract_visits
      rw [if_pos hc2]
    obtain ⟨b1, b2, b3⟩ :=
      extract_visits_fold (ti.rows.foldl url_fold_step (⟨sf, dn, [], [], []⟩, [])).2
        (sort_by (fun a b => decide (b.visit_time ≤ a.visit_time)) tv.rows)
        (ti.rows.foldl url_fold_step (⟨sf, dn, [], [], []⟩, [])).1
    refine ⟨(sort_by (fun a b => decide (b.visit_time ≤ a.visit_time)) tv.rows).foldl
        (visit_fold_step (ti.rows.foldl url_fold_step (⟨sf, dn, [], [], []⟩, [])).2)
        (ti.rows.foldl url_fold_step (⟨sf, dn, [], [], []⟩, [])).1, ?_, ?_, ?_, ?_⟩
    · rw [extract_history_some_ok db sf dn ti tv _ h1 h2 hu]
      exact hv
    · rw [show ((sort_by (fun a b => decide (b.visit_time ≤ a.visit_time)) tv.rows).foldl
          (visit_fold_step (ti.rows.foldl url_fold_step (⟨sf, dn, [], [], []⟩, [])).2)
          (ti.rows.foldl url_fold_step (⟨sf, dn, [], [], []⟩, [])).1).urls = _ from b3]
      rw [show (ti.rows.foldl url_fold_step (⟨sf, dn, [], [], []⟩, [])).1.urls.length = _ from a1]
      simp
    · rw [b1]
      rw [show (ti.rows.foldl url_fold_step (⟨sf, dn, [], [], []⟩, [])).1.visits = _ from a3]
      rw [hresf, countP_sort_by]
      simp
    · rw [b2]
      rw [show (ti.rows.foldl url_fold_step (⟨sf, dn, [], [], []⟩, [])).1.warnings.length
        = _ from a2]
      rw [show (fun r => !(visit_resolves
          (ti.rows.foldl url_fold_step (⟨sf, dn, [], [], []⟩, [])).2 r))
        = (fun r => !(visit_row_ok ti r)) from funext (fun r => by rw [hres r])]
      rw [countP_sort_by]
      simp

/-- Witness for the amended C5: the schema errors at a concrete
table-less file, and the per-row soft-failure counts at a concrete
valid file with one bad URL row and one unresolvable visit. -/
theorem extraction_error_structure_witness :
    (verify_safari_schema ⟨none, none⟩ = .error (.UnsupportedSchema "history_items") ∧
     extract_history ⟨none, none⟩ "f" none = .error (.UnsupportedSchema "history_items")) ∧
    (∃ b, extract_history c5_good_db "h.db" none = .ok b ∧
      b.urls.length = c5_ti.rows.countP url_row_ok ∧
      b.visits.length = c5_tv.rows.countP (visit_row_ok c5_ti) ∧
      b.warnings.length = c5_ti.rows.countP (fun r => !url_row_ok r)
        + c5_tv.rows.countP (fun r => !(visit_row_ok c5_ti r))) :=
  ⟨extraction_error_structure.1 ⟨none, none⟩ "f" none rfl,
   extraction_error_structure.2.2 c5_good_db "h.db" none c5_ti c5_tv rfl rfl
     (by decide) (by decide)⟩

end Hist
